import Mathlib

/-!
Verification of the SimpleLight emulator storage layer.

Part 1 embeds `src/fakedriver/sd_card.c` (the fake SD sector store with its
sparse write overlay) and the in-memory fake filesystem (`f_open`, `f_read`,
`f_readdir`, `f_unlink`, `f_mount`, cluster helpers).  Part 2 proves the
specification claims about them.

Modelling conventions:
* machine integers are `Nat` with an explicit `% 2^w` where C overflow or
  truncation matters (`u16` sector tags in the overlay, `DWORD` cluster
  arithmetic);
* a sector (512 bytes) is copied only as a whole by the C code, so sector
  payloads are modelled as opaque byte lists (`Sector := List Nat`);
* byte buffers passed by pointer are modelled by their contents, with a
  separate `Bool` flag for NULL pointers where the code checks for them;
* `malloc` success is an environment choice recorded in the state
  (`allocOK`), since the C code branches on it.
-/

namespace SD

/-- A 512-byte sector payload.  The driver only ever copies whole sectors,
so the payload is kept abstract as a byte list. -/
abbrev Sector := List Nat

/-- `DRESULT` codes from `diskio.h`. -/
inductive DRESULT where
  | OK      -- RES_OK
  | ERROR   -- RES_ERROR
  | WRPRT   -- RES_WRPRT
  | NOTRDY  -- RES_NOTRDY
  | PARERR  -- RES_PARERR
deriving DecidableEq, Repr

/-- `MAX_OVERLAY_SECTORS` in sd_card.c. -/
def MAX_OVERLAY_SECTORS : Nat := 256

/-- The `u16` free-slot marker `0xFFFF` of `overlay_sector_id`. -/
def FREE16 : Nat := 65535

/-- `2^16`: overlay sector tags are `u16`, so sectors are stored truncated. -/
def U16MOD : Nat := 65536

/-- `2^32` for `u32`/`DWORD` arithmetic. -/
def U32 : Nat := 4294967296

/-- Pointwise function update (the effect of writing one array cell). -/
def upd (f : Nat → α) (i : Nat) (v : α) : Nat → α :=
  fun j => if j = i then v else f j

/-- The global state of the fake SD driver (`sd_card.c` statics).
`diskBin` is the embedded read-only image, indexed by sector number;
`diskBinSize` is `disk_bin_size` in bytes. `imgRam = some ram` is the
mutable full copy `g_img_ram`; `none` means overlay mode.  `allocOK`
records whether the `malloc` of the full copy succeeds when
`ensure_sd_open` runs. -/
structure SDState where
  ready : Bool                 -- g_sd_ready
  imgRam : Option (Nat → Sector)  -- g_img_ram (by sector index)
  overlayIds : Nat → Nat       -- overlay_sector_id (u16 values, FREE16 = free)
  overlayData : Nat → Sector   -- overlay_sector_data
  overlayUsed : Nat            -- overlay_used_count
  diskBinNull : Bool           -- disk_bin == NULL
  diskBin : Nat → Sector       -- disk_bin, as sectors
  diskBinSize : Nat            -- disk_bin_size
  sectorCount : Nat            -- g_sector_count
  allocOK : Bool               -- whether malloc(usable) succeeds

/-- `overlay_init`: mark every slot free and reset the use count. -/
def overlay_init (st : SDState) : SDState :=
  { st with overlayIds := fun _ => FREE16, overlayUsed := 0 }

/-- `overlay_find`: first slot whose tag equals the sector truncated to
`u16`; `none` models the C return value `0xFFFF`. -/
def overlay_find (st : SDState) (sector : Nat) : Option Nat :=
  (List.range MAX_OVERLAY_SECTORS).find? (fun i => st.overlayIds i == sector % U16MOD)

/-- `overlay_get_or_create`: existing slot, or the first free slot seeded
from the base image.  `none` models failure (no space). -/
def overlay_get_or_create (st : SDState) (sector : Nat) : Option Nat × SDState :=
  match overlay_find st sector with
  | some idx => (some idx, st)
  | none =>
    match (List.range MAX_OVERLAY_SECTORS).find? (fun i => st.overlayIds i == FREE16) with
    | some idx =>
      (some idx,
        { st with
          overlayIds := upd st.overlayIds idx (sector % U16MOD),
          overlayData := upd st.overlayData idx (st.diskBin sector),
          overlayUsed := st.overlayUsed + 1 })
    | none => (none, st)

/-- `ensure_sd_open`.  The full copy `memcpy(g_img_ram, disk_bin, usable)`
is modelled as copying the sector function itself: every later access is
bounds-checked below `sectorCount`, so sectors past `usable` are never
consulted. -/
def ensure_sd_open (st : SDState) : Bool × SDState :=
  if st.ready then (true, st)
  else if st.diskBinNull || st.diskBinSize == 0 then (false, st)
  else
    let usable := st.diskBinSize - st.diskBinSize % 512
    let scount := usable / 512
    if st.allocOK then
      (true, { st with
               ready := true
               sectorCount := scount
               imgRam := some st.diskBin })
    else
      (true, overlay_init { st with ready := true, sectorCount := scount, imgRam := none })

/-- Resolution of a single sector in overlay mode: the cached payload when
present, the base image otherwise (the body of the read loop). -/
def ovRead (st : SDState) (sector : Nat) : Sector :=
  match overlay_find st sector with
  | some idx => st.overlayData idx
  | none => st.diskBin sector

/-- `Read_SD_sectors`.  `bufNull` models `SDbuffer == NULL`; the returned
list is the data copied into `SDbuffer` (empty on failure). -/
def Read_SD_sectors (st0 : SDState) (address count : Nat) (bufNull : Bool) :
    DRESULT × List Sector :=
  let p := ensure_sd_open st0
  let st := p.2
  if !p.1 || bufNull then (DRESULT.ERROR, [])
  else if count == 0 then (DRESULT.PARERR, [])
  else if decide (st.sectorCount ≤ address) then (DRESULT.PARERR, [])
  else if decide (st.sectorCount - address < count) then (DRESULT.PARERR, [])
  else match st.imgRam with
    | some ram => (DRESULT.OK, (List.range count).map (fun i => ram (address + i)))
    | none => (DRESULT.OK, (List.range count).map (fun i => ovRead st (address + i)))

/-- The sector-wise effect of `memcpy` into the mutable image copy. -/
def imgWrite (ram : Nat → Sector) (address count : Nat) (src : List Sector) :
    Nat → Sector :=
  fun s => if address ≤ s ∧ s < address + count then src.getD (s - address) [] else ram s

/-- The overlay write loop of `Write_SD_sectors`: one sector per iteration,
`overlay_get_or_create` then copy the payload; `RES_ERROR` as soon as the
overlay is out of space (earlier iterations are kept). -/
def write_overlay_loop : SDState → Nat → List Sector → Nat → DRESULT × SDState
  | st, _, _, 0 => (DRESULT.OK, st)
  | st, sector, src, Nat.succ k =>
    match overlay_get_or_create st sector with
    | (none, st1) => (DRESULT.ERROR, st1)
    | (some idx, st1) =>
      let st2 := { st1 with overlayData := upd st1.overlayData idx (src.headD []) }
      write_overlay_loop st2 (sector + 1) src.tail k

/-- `Write_SD_sectors`. -/
def Write_SD_sectors (st0 : SDState) (address count : Nat) (bufNull : Bool)
    (src : List Sector) : DRESULT × SDState :=
  let p := ensure_sd_open st0
  let st := p.2
  if !p.1 || bufNull then (DRESULT.ERROR, st)
  else if count == 0 then (DRESULT.PARERR, st)
  else if decide (st.sectorCount ≤ address) then (DRESULT.PARERR, st)
  else if decide (st.sectorCount - address < count) then (DRESULT.PARERR, st)
  else match st.imgRam with
    | some ram =>
      (DRESULT.OK, { st with imgRam := some (imgWrite ram address count src) })
    | none => write_overlay_loop st address src count

/-- Well-formedness of the overlay table: occupied slots carry pairwise
distinct tags.  Freshly initialised overlays satisfy it and
`overlay_get_or_create` preserves it. -/
def OvWF (st : SDState) : Prop :=
  ∀ i, i < MAX_OVERLAY_SECTORS → ∀ j, j < MAX_OVERLAY_SECTORS →
    st.overlayIds i = st.overlayIds j → st.overlayIds i ≠ FREE16 → i = j

end SD

namespace FakeFS

/-- `FRESULT` codes of the FatFs API surface (from the library header; the
fake filesystem returns a subset of them). -/
inductive FRESULT where
  | FR_OK | FR_DISK_ERR | FR_INT_ERR | FR_NOT_READY | FR_NO_FILE | FR_NO_PATH
  | FR_INVALID_NAME | FR_DENIED | FR_EXIST | FR_INVALID_OBJECT
  | FR_WRITE_PROTECTED | FR_INVALID_DRIVE | FR_NOT_ENABLED | FR_NO_FILESYSTEM
  | FR_MKFS_ABORTED | FR_TIMEOUT | FR_LOCKED | FR_NOT_ENOUGH_CORE
  | FR_TOO_MANY_OPEN_FILES | FR_INVALID_PARAMETER
deriving DecidableEq, Repr

export FRESULT (FR_OK FR_INT_ERR FR_NOT_READY FR_NO_FILE FR_NO_PATH FR_DENIED
  FR_EXIST FR_INVALID_OBJECT FR_INVALID_PARAMETER)

/-- Attribute bits (standard FatFs values, library header not in `src/`). -/
def AM_DIR : Nat := 16   -- 0x10
/-- `AM_ARC` archive/file attribute bit. -/
def AM_ARC : Nat := 32   -- 0x20

/-- Open-mode bits (standard FatFs values, library header not in `src/`). -/
def FA_READ : Nat := 1
/-- `FA_WRITE`. -/
def FA_WRITE : Nat := 2
/-- `FA_CREATE_NEW`. -/
def FA_CREATE_NEW : Nat := 4
/-- `FA_CREATE_ALWAYS`. -/
def FA_CREATE_ALWAYS : Nat := 8
/-- `FA_OPEN_ALWAYS`. -/
def FA_OPEN_ALWAYS : Nat := 16

/-- `FS_MAX_NODES`: capacity of the static node pool. -/
def FS_MAX_NODES : Nat := 64

/-- An `FsNode` of the fake filesystem.  C pointers between nodes become
indices into the node pool (`Option Nat`, `none` = NULL). -/
structure FsNode where
  name : String
  attr : Nat
  parent : Option Nat
  firstChild : Option Nat
  nextSibling : Option Nat
  data : Option (List Nat)   -- file content bytes; none = no backing buffer
  size : Nat
  startCluster : Nat
deriving DecidableEq, Repr

instance : Inhabited FsNode :=
  ⟨{ name := "", attr := 0, parent := none, firstChild := none,
     nextSibling := none, data := none, size := 0, startCluster := 0 }⟩

/-- The static state of the fake filesystem.  `g_fs` (the caller's `FATFS`)
is folded in as the `fsCsize`/`fsId`/`fsDatabase` fields, valid while
`mounted`; `f_mount` fills them with the fixed constants of the source. -/
structure FsState where
  pool : List FsNode          -- g_node_pool
  nodeUsed : Nat              -- g_node_used
  root : Option Nat           -- g_root
  cwd : Option Nat            -- g_cwd
  nextCluster : Nat           -- g_nextCluster
  mounted : Bool              -- g_mounted (g_fs is non-NULL exactly when set)
  fsCsize : Nat               -- g_fs->csize
  fsId : Nat                  -- g_fs->id
  fsDatabase : Nat            -- g_fs->database
  iterDir : Option Nat        -- g_iter_dir
  iterNext : Option Nat       -- g_iter_next
deriving DecidableEq, Repr

/-- Dereference a node pointer (out-of-pool indices never arise in runs of
the C code; they read as the zeroed node). -/
def nodeAt (st : FsState) (i : Nat) : FsNode := st.pool.getD i default

/-- Write back one node of the pool. -/
def updateNode (st : FsState) (i : Nat) (f : FsNode → FsNode) : FsState :=
  { st with pool := st.pool.set i (f (nodeAt st i)) }

/-- `strcasecmp == 0`: case-insensitive name comparison. -/
def nameEq (a b : String) : Bool :=
  a.toList.map Char.toLower == b.toList.map Char.toLower

/-- Segment splitting of `fs_resolve`/`fs_ensure_dir`: `/`-separated,
empty segments (consecutive or trailing slashes) skipped.  The C segment
buffer is 256 bytes; paths that long never occur here. -/
def splitSegs : List Char → List Char → List String
  | [], acc => if acc.isEmpty then [] else [String.mk acc.reverse]
  | c :: rest, acc =>
    if c = '/' then
      if acc.isEmpty then splitSegs rest [] else String.mk acc.reverse :: splitSegs rest []
    else splitSegs rest (c :: acc)

/-- Split a path string into its non-empty segments. -/
def splitPath (p : String) : List String := splitSegs p.toList []

/-- Does the path start with `/` (absolute)? -/
def isAbs (p : String) : Bool :=
  match p.toList with
  | '/' :: _ => true
  | _ => false

/-- First `n` characters of a string (`strncpy` truncation). -/
def strTake (s : String) (n : Nat) : String := String.mk (s.toList.take n)

/-- `strrchr(path, '/')`: split at the last slash when there is one,
returning (prefix before it, suffix after it). -/
def lastSlashSplit (p : String) : Option (String × String) :=
  let rev := p.toList.reverse
  if rev.contains '/' then
    some (String.mk ((rev.dropWhile (fun c => c ≠ '/')).tail.reverse),
          String.mk ((rev.takeWhile (fun c => c ≠ '/')).reverse))
  else none

/-- The sibling chain starting at `cur`, followed through `nextSibling`.
The C `for` loops walk this unboundedly; `FS_MAX_NODES` fuel is exact for
every terminating (hence duplicate-free, ≤ pool-size) chain, while a
cyclic chain would make the C code loop forever. -/
def childChain (st : FsState) : Nat → Option Nat → List Nat
  | 0, _ => []
  | _, none => []
  | fuel + 1, some i => i :: childChain st fuel (nodeAt st i).nextSibling

/-- Does the chain from `cur` reach NULL within `fuel` steps? -/
def chainTerm (st : FsState) : Nat → Option Nat → Bool
  | 0, cur => cur.isNone
  | _ + 1, none => true
  | fuel + 1, some i => chainTerm st fuel (nodeAt st i).nextSibling

/-- The list of children of directory `dir`, in sibling order. -/
def childList (st : FsState) (dir : Nat) : List Nat :=
  childChain st FS_MAX_NODES (nodeAt st dir).firstChild

/-- Last node of a sibling chain (the append walk of `fs_add_child`). -/
def chainLast (st : FsState) : Nat → Nat → Nat
  | 0, cur => cur
  | fuel + 1, cur =>
    match (nodeAt st cur).nextSibling with
    | none => cur
    | some nxt => chainLast st fuel nxt

/-- `fs_alloc_node`: reuse a freed slot (`name[0]=='\0' && attr==0`) below
`g_node_used`, else take a fresh slot; `none` when the pool is full.  The
chosen slot is zeroed (`memset`). -/
def fs_alloc_node (st : FsState) : Option (Nat × FsState) :=
  match (List.range st.nodeUsed).find?
      (fun i => (nodeAt st i).name == "" && (nodeAt st i).attr == 0) with
  | some i => some (i, updateNode st i (fun _ => default))
  | none =>
    if st.nodeUsed ≥ FS_MAX_NODES then none
    else
      some (st.nodeUsed,
        { updateNode st st.nodeUsed (fun _ => default) with nodeUsed := st.nodeUsed + 1 })

/-- `fs_new_node`: allocate and initialise a node.  `strncpy` bounds the
name to 99 characters. -/
def fs_new_node (st : FsState) (name : String) (attr : Nat) : Option (Nat × FsState) :=
  match fs_alloc_node st with
  | none => none
  | some (i, st1) =>
    some (i, updateNode st1 i (fun _ =>
      { name := strTake name 99, attr := attr, parent := none, firstChild := none,
        nextSibling := none, data := none, size := 0, startCluster := 2 }))

/-- `fs_add_child`: append `child` at the end of `dir`'s sibling list. -/
def fs_add_child (st : FsState) (dir child : Nat) : FsState :=
  let st1 := updateNode st child (fun c => { c with parent := some dir, nextSibling := none })
  match (nodeAt st1 dir).firstChild with
  | none => updateNode st1 dir (fun d => { d with firstChild := some child })
  | some fc =>
    updateNode st1 (chainLast st1 FS_MAX_NODES fc) (fun p => { p with nextSibling := some child })

/-- `fs_find_child`: first child of `dir` whose name matches
case-insensitively; `none` if `dir` is not a directory. -/
def fs_find_child (st : FsState) (dir : Nat) (name : String) : Option Nat :=
  if (nodeAt st dir).attr &&& AM_DIR == 0 then none
  else (childList st dir).find? (fun i => nameEq (nodeAt st i).name name)

/-- The segment walk of `fs_resolve` (the trailing-slash out-parameter of
the C function is computed but never used by any caller modelled here). -/
def fs_resolve_walk (st : FsState) : List String → Nat → Option Nat
  | [], cur => some cur
  | seg :: rest, cur =>
    if seg == "." then fs_resolve_walk st rest cur
    else if seg == ".." then fs_resolve_walk st rest ((nodeAt st cur).parent.getD cur)
    else
      match fs_find_child st cur seg with
      | none => none
      | some nxt => fs_resolve_walk st rest nxt

/-- `fs_resolve`. -/
def fs_resolve (st : FsState) (path : String) : Option Nat :=
  match st.root with
  | none => none
  | some r =>
    if path == "" then some (st.cwd.getD r)
    else fs_resolve_walk st (splitPath path) (if isAbs path then r else st.cwd.getD r)

/-- The segment walk of `fs_ensure_dir`, creating missing directories.
`cur = none` arises in C only after a failed node allocation (the pool is
never exhausted in the scenarios verified below); the C code would then
pass NULL to `fs_find_child`/`fs_add_child` (which ignore it) and crash on
a subsequent `..`, modelled here as staying put. -/
def fs_ensure_walk : FsState → List String → Option Nat → FsState × Option Nat
  | st, [], cur => (st, cur)
  | st, seg :: rest, cur =>
    if seg == "." then fs_ensure_walk st rest cur
    else if seg == ".." then
      match cur with
      | none => fs_ensure_walk st rest none
      | some c => fs_ensure_walk st rest (some ((nodeAt st c).parent.getD c))
    else
      match cur with
      | none =>
        match fs_new_node st seg AM_DIR with
        | none => fs_ensure_walk st rest none
        | some (i, st1) => fs_ensure_walk st1 rest (some i)
      | some c =>
        match fs_find_child st c seg with
        | some nxt => fs_ensure_walk st rest (some nxt)
        | none =>
          match fs_new_node st seg AM_DIR with
          | none => fs_ensure_walk st rest none
          | some (i, st1) => fs_ensure_walk (fs_add_child st1 c i) rest (some i)

/-- `fs_ensure_dir`. -/
def fs_ensure_dir (st : FsState) (path : String) : FsState × Option Nat :=
  match st.root with
  | none => (st, none)
  | some r =>
    if path == "" then (st, some r)
    else fs_ensure_walk st (splitPath path) (some (if isAbs path then r else st.cwd.getD r))

/-- `fs_assign_clusters`: give a file a contiguous cluster run starting at
`g_nextCluster`.  All arithmetic is `DWORD`; with `csize = 0` the C code
divides by zero (never reached: `f_mount` sets `csize = 4`). -/
def fs_assign_clusters (st : FsState) (ni : Nat) : FsState :=
  if (nodeAt st ni).attr &&& AM_DIR ≠ 0 then st
  else
    let clusterSizeBytes := (st.fsCsize * 512) % SD.U32
    let ncl0 := (((nodeAt st ni).size + clusterSizeBytes - 1) % SD.U32) / clusterSizeBytes
    let ncl := if ncl0 == 0 then 1 else ncl0
    let st1 := updateNode st ni (fun n => { n with startCluster := st.nextCluster })
    { st1 with nextCluster := (st.nextCluster + ncl) % SD.U32 }

/-- Create a file node of the default layout: node, size, clusters, attach
(`fs_populate_default` does exactly these steps for each sample file; a
`none` from the allocator cannot occur with 12 nodes in a 64-slot pool). -/
def fs_addFile (st : FsState) (parent : Nat) (name : String) (size : Nat) : FsState :=
  match fs_new_node st name AM_ARC with
  | none => st
  | some (i, st1) =>
    let st2 := updateNode st1 i (fun n => { n with size := size, data := none })
    let st3 := fs_assign_clusters st2 i
    fs_add_child st3 parent i

/-- Create a directory node of the default layout. -/
def fs_addDir (st : FsState) (parent : Nat) (name : String) : FsState × Option Nat :=
  match fs_new_node st name AM_DIR with
  | none => (st, none)
  | some (i, st1) => (fs_add_child st1 parent i, some i)

/-- `fs_populate_default`: the fixed layout built by `f_mount`. -/
def fs_populate_default (st : FsState) : FsState :=
  match fs_new_node st "" AM_DIR with
  | none => st
  | some (r, st1) =>
    let st2 := { st1 with root := some r, cwd := some r }
    let p3 := fs_addDir st2 r "SYSTEM"
    match p3.2 with
    | none => p3.1
    | some sys =>
      let st4 := (fs_addDir p3.1 sys "PATCH").1
      let st5 := (fs_addDir st4 sys "PLUG").1
      let st6 := fs_addFile st5 sys "RECENT.TXT" 0
      let st7 := fs_addFile st6 r "ALTT.gba" (8 * 1024 * 1024)
      let st8 := fs_addFile st7 r "Metroid.gba" (16 * 1024 * 1024)
      let st9 := fs_addFile st8 r "Sample.gb" (256 * 1024)
      let st10 := fs_addFile st9 r "Readme.txt" 2048
      let p11 := fs_addDir st10 r "GAMES"
      match p11.2 with
      | none => p11.1
      | some games =>
        let st12 := fs_addFile p11.1 games "Pokemon.gba" (32 * 1024 * 1024)
        fs_addFile st12 games "MarioKart.gba" (16 * 1024 * 1024)

/-- `f_mount` with a non-NULL `FATFS`: fill the fixed FAT parameters,
reset the filesystem state and build the default layout.  (`g_node_used`
is reset to 0; stale pool slots are invisible to the allocator.) -/
def f_mount (st : FsState) : FsState :=
  fs_populate_default
    { st with
      mounted := true
      fsCsize := 4
      fsId := 4660        -- 0x1234
      fsDatabase := 2048
      root := none
      cwd := none
      nextCluster := 2
      nodeUsed := 0
      iterDir := none
      iterNext := none }

/-- The all-zero start state (C statics before first use). -/
def initState : FsState :=
  { pool := List.replicate FS_MAX_NODES default, nodeUsed := 0, root := none,
    cwd := none, nextCluster := 2, mounted := false, fsCsize := 0, fsId := 0,
    fsDatabase := 0, iterDir := none, iterNext := none }

/-- The fields of a `FIL` that the fake filesystem touches.  `dirPtr` is
the back-pointer from the handle to its node (stored in `fp->dir_ptr`). -/
structure FIL where
  fsSet : Bool       -- obj.fs (non-NULL?)
  id : Nat           -- obj.id
  attr : Nat         -- obj.attr
  sclust : Nat       -- obj.sclust
  objsize : Nat      -- obj.objsize
  flag : Nat         -- open mode
  fptr : Nat         -- byte cursor
  clust : Nat
  sect : Nat
  dirPtr : Option Nat
deriving DecidableEq, Repr

/-- A `FIL` after `memset(fp, 0, sizeof *fp)`. -/
def filZero : FIL :=
  { fsSet := false, id := 0, attr := 0, sclust := 0, objsize := 0, flag := 0,
    fptr := 0, clust := 0, sect := 0, dirPtr := none }

/-- The tail of `f_open` shared by the resolved and freshly-created cases:
reject directories, then fill the handle. -/
def f_open_node (st : FsState) (ni : Nat) (mode : Nat) : FRESULT × FsState × FIL :=
  if (nodeAt st ni).attr &&& AM_DIR ≠ 0 then (FR_INVALID_OBJECT, st, filZero)
  else
    (FR_OK, st,
      { fsSet := true, id := st.fsId, attr := (nodeAt st ni).attr,
        sclust := (nodeAt st ni).startCluster, objsize := (nodeAt st ni).size,
        flag := mode, fptr := 0, clust := (nodeAt st ni).startCluster, sect := 0,
        dirPtr := some ni })

/-- `f_open`.  `fp0` is the caller's handle, returned untouched on the
early `FR_NOT_READY` exit (before the `memset`). -/
def f_open (st : FsState) (fp0 : FIL) (path : String) (mode : Nat) :
    FRESULT × FsState × FIL :=
  if !st.mounted then (FR_NOT_READY, st, fp0)
  else
    match fs_resolve st path with
    | some node => f_open_node st node mode
    | none =>
      if mode &&& (FA_CREATE_ALWAYS ||| FA_OPEN_ALWAYS ||| FA_CREATE_NEW) ≠ 0 then
        let pn := match lastSlashSplit path with
          | some (pre, post) => (pre, strTake post 99)
          | none => (".", strTake path 99)
        let ep := fs_ensure_dir st pn.1
        match ep.2 with
        | none => (FR_NO_PATH, ep.1, filZero)
        | some parent =>
          if (nodeAt ep.1 parent).attr &&& AM_DIR == 0 then (FR_NO_PATH, ep.1, filZero)
          else if mode &&& FA_CREATE_NEW ≠ 0 && (fs_find_child ep.1 parent pn.2).isSome then
            (FR_EXIST, ep.1, filZero)
          else
            match fs_new_node ep.1 pn.2 AM_ARC with
            | none => (FR_INT_ERR, ep.1, filZero)
            | some (ni, st2) =>
              let st3 := fs_assign_clusters st2 ni
              let st4 := fs_add_child st3 parent ni
              f_open_node st4 ni mode
      else (FR_NO_FILE, st, filZero)

/-- `f_read`: result code, updated handle, bytes copied into the buffer,
and `*br`.  (The NULL checks on `fp`/`buff` are not modelled; no claim
exercises them.) -/
def f_read (st : FsState) (fp : FIL) (btr : Nat) : FRESULT × FIL × List Nat × Nat :=
  if !st.mounted then (FR_INVALID_PARAMETER, fp, [], 0)
  else
    match fp.dirPtr with
    | none => (FR_INVALID_OBJECT, fp, [], 0)
    | some ni =>
      if (nodeAt st ni).size ≤ fp.fptr then (FR_OK, fp, [], 0)
      else
        let remain := (nodeAt st ni).size - fp.fptr
        let tocopy := min btr remain
        let bytes := match (nodeAt st ni).data with
          | some d => (List.range tocopy).map (fun i => d.getD (fp.fptr + i) 0)
          | none => List.replicate tocopy 0
        (FR_OK, { fp with fptr := fp.fptr + tocopy }, bytes, tocopy)

/-- `FILINFO` (name, attributes, size; other fields unused by this code). -/
structure FILINFO where
  fname : String
  fattrib : Nat
  fsize : Nat
deriving DecidableEq, Repr

/-- The `FILINFO` filled in for a node by `f_readdir`/`f_stat`. -/
def filinfoOf (n : FsNode) : FILINFO :=
  { fname := n.name, fattrib := n.attr,
    fsize := if n.attr &&& AM_DIR ≠ 0 then 0 else n.size }

/-- `f_opendir`: result, new state, and the `dp->dir` sentinel flag. -/
def f_opendir (st : FsState) (path : String) : FRESULT × FsState × Bool :=
  if !st.mounted then (FR_INVALID_PARAMETER, st, false)
  else
    match (if path == "" then st.cwd else fs_resolve st path) with
    | none => (FR_NO_PATH, st, false)
    | some n =>
      if (nodeAt st n).attr &&& AM_DIR == 0 then (FR_NO_PATH, st, false)
      else (FR_OK, { st with iterDir := some n, iterNext := (nodeAt st n).firstChild }, true)

/-- `f_readdir`.  `dpOpen` is the `dp->dir` sentinel; `fnoNull` models a
NULL `fno` pointer.  The yielded entry is `none` exactly when no `FILINFO`
is written; the end-of-directory sentinel is an entry with empty `fname`
(C only clears `fname[0]`; the other fields are modelled as 0). -/
def f_readdir (st : FsState) (dpOpen : Bool) (fnoNull : Bool) :
    FRESULT × FsState × Option FILINFO :=
  if !st.mounted then (FR_INVALID_PARAMETER, st, none)
  else if !dpOpen then
    (FR_OK, st, if fnoNull then none else some { fname := "", fattrib := 0, fsize := 0 })
  else if fnoNull then
    (FR_OK,
     { st with iterNext := match st.iterDir with
                           | some d => (nodeAt st d).firstChild
                           | none => none },
     none)
  else
    match st.iterNext with
    | none => (FR_OK, st, some { fname := "", fattrib := 0, fsize := 0 })
    | some n =>
      (FR_OK, { st with iterNext := (nodeAt st n).nextSibling }, some (filinfoOf (nodeAt st n)))

/-- The predecessor scan of `f_unlink`: walk the sibling chain from `cur`
looking for `n`; `some prev` when found (`prev = none` means `n` is the
first child), `none` when the chain ends without finding it. -/
def findPrev (st : FsState) : Nat → Option Nat → Option Nat → Nat → Option (Option Nat)
  | 0, _, _, _ => none
  | _ + 1, none, _, _ => none
  | fuel + 1, some it, prev, n =>
    if it = n then some prev
    else findPrev st fuel (nodeAt st it).nextSibling (some it) n

/-- `f_unlink`. -/
def f_unlink (st : FsState) (path : String) : FRESULT × FsState :=
  match fs_resolve st path with
  | none => (FR_NO_FILE, st)
  | some n =>
    if st.root = some n then (FR_DENIED, st)
    else if (nodeAt st n).attr &&& AM_DIR ≠ 0 && (nodeAt st n).firstChild.isSome then
      (FR_DENIED, st)
    else
      match (nodeAt st n).parent with
      | none => (FR_INT_ERR, st)
      | some parent =>
        match findPrev st FS_MAX_NODES (nodeAt st parent).firstChild none n with
        | none => (FR_INT_ERR, st)
        | some prevO =>
          let st1 := match prevO with
            | none => updateNode st parent (fun d => { d with firstChild := (nodeAt st n).nextSibling })
            | some p => updateNode st p (fun q => { q with nextSibling := (nodeAt st n).nextSibling })
          (FR_OK,
            updateNode st1 n (fun m =>
              { m with name := "", attr := 0, parent := none, firstChild := none,
                       nextSibling := none, data := none, size := 0, startCluster := 0 }))

/-- The record-clearing step of `f_unlink` (the free-slot state scanned
for by `fs_alloc_node`: empty name, zero attributes). -/
def clearNode (m : FsNode) : FsNode :=
  { m with name := "", attr := 0, parent := none, firstChild := none,
           nextSibling := none, data := none, size := 0, startCluster := 0 }

/-- The parent-side surgery of `f_unlink` when the node is the first child. -/
def unlinkHead (st : FsState) (parent n : Nat) : FsState :=
  updateNode st parent (fun d => { d with firstChild := (nodeAt st n).nextSibling })

/-- The predecessor-side surgery of `f_unlink` when the node has a
previous sibling. -/
def unlinkPrev (st : FsState) (p n : Nat) : FsState :=
  updateNode st p (fun q => { q with nextSibling := (nodeAt st n).nextSibling })

/-- `f_chdir`. -/
def f_chdir (st : FsState) (path : String) : FRESULT × FsState :=
  if !st.mounted then (FR_NOT_READY, st)
  else
    match fs_resolve st path with
    | none => (FR_NO_PATH, st)
    | some n =>
      if (nodeAt st n).attr &&& AM_DIR == 0 then (FR_NO_PATH, st)
      else (FR_OK, { st with cwd := some n })

/-- The `FFOBJID` fields consulted by `Get_NextCluster`. -/
structure FFObjId where
  objsize : Nat
  sclust : Nat
deriving DecidableEq, Repr

/-- `Get_NextCluster`: arithmetic successor in the synthetic contiguous
cluster chain, `0xFFFF` as end-of-chain marker.  (`g_fs` is non-NULL
exactly while mounted; the NULL `obj` check is not modelled.) -/
def Get_NextCluster (st : FsState) (obj : FFObjId) (clst : Nat) : Nat :=
  if !st.mounted then 65535
  else
    let cs0 := (st.fsCsize * 512) % SD.U32
    let clusterSizeBytes := if cs0 == 0 then 2048 else cs0
    let ncl0 := ((obj.objsize + clusterSizeBytes - 1) % SD.U32) / clusterSizeBytes
    let ncl := if ncl0 == 0 then 1 else ncl0
    let base := if obj.sclust ≠ 0 then obj.sclust else 2
    if clst < base then base
    else if ncl ≤ (clst - base) + 1 then 65535
    else base + (clst - base) + 1

end FakeFS

namespace SD

/-- An initialised overlay-mode store with `n` sectors, a given overlay tag
table, empty payloads and an all-`[0]` base image (used to instantiate the
theorems below on concrete states). -/
def ovlStateIds (n : Nat) (ids : Nat → Nat) : SDState :=
  { ready := true, imgRam := none, overlayIds := ids, overlayData := fun _ => [],
    overlayUsed := 0, diskBinNull := false, diskBin := fun _ => [0],
    diskBinSize := n * 512, sectorCount := n, allocOK := false }

/-- A freshly initialised overlay-mode store with `n` sectors. -/
def ovlState (n : Nat) : SDState := ovlStateIds n (fun _ => FREE16)

/-- An initialised full-copy-mode store with `n` sectors. -/
def fullState (n : Nat) : SDState :=
  { ovlState n with imgRam := some (fun _ => [0]), allocOK := true }

end SD

namespace FakeFS

/-- A single file node used to instantiate the `f_read` theorem. -/
def exNode : FsNode :=
  { name := "F.TXT", attr := AM_ARC, parent := none, firstChild := none,
    nextSibling := none, data := some [5, 6, 7], size := 3, startCluster := 2 }

/-- A mounted state whose pool holds just `exNode`. -/
def exReadFS : FsState :=
  { pool := [exNode], nodeUsed := 1, root := none, cwd := none, nextCluster := 3,
    mounted := true, fsCsize := 4, fsId := 4660, fsDatabase := 2048,
    iterDir := none, iterNext := none }

/-- A handle on `exNode` with its cursor at byte 1. -/
def exFIL : FIL := { filZero with dirPtr := some 0, fptr := 1, flag := FA_READ }

/-- An ordinary path segment: neither `.` nor `..` (the two segments that
resolution treats specially). -/
def ordSeg (s : String) : Bool := !(s == ".") && !(s == "..")

/-- The last segment of a path is an ordinary name. -/
def lastOrd : List String → Bool
  | [] => false
  | [s] => ordSeg s
  | _ :: rest => lastOrd rest

/-- The path has at least one ordinary segment. -/
def containsOrd : List String → Bool
  | [] => false
  | s :: rest => ordSeg s || containsOrd rest

/-- Structural well-formedness of the node tree, as maintained by the
reachable states of the fake filesystem: the pool has its static size,
every sibling chain is a finite duplicate-free list of in-pool indices,
distinct directories have disjoint child lists, and no directory lists
itself. -/
def TreeWF (st : FsState) : Prop :=
  st.pool.length = FS_MAX_NODES ∧
  (∀ d, d < FS_MAX_NODES → chainTerm st FS_MAX_NODES (nodeAt st d).firstChild = true) ∧
  (∀ d, d < FS_MAX_NODES → (childList st d).Nodup) ∧
  (∀ d1, d1 < FS_MAX_NODES → ∀ d2, d2 < FS_MAX_NODES →
    ∀ i, i ∈ childList st d1 → i ∈ childList st d2 → d1 = d2) ∧
  (∀ d, d < FS_MAX_NODES → d ∉ childList st d) ∧
  (∀ d, d < FS_MAX_NODES → ∀ i, i ∈ childList st d → i < FS_MAX_NODES)

end FakeFS

/-! ## Generic list lemmas used by both parts. -/

namespace ListAux

theorem getD_tail (l : List α) (n : Nat) (d : α) :
    l.tail.getD n d = l.getD (n + 1) d := by
  cases l <;> simp [List.getD]

theorem headD_eq_getD (l : List α) (d : α) : l.headD d = l.getD 0 d := by
  cases l <;> rfl

theorem map_range_getD (l : List α) (d : α) :
    (List.range l.length).map (fun i => l.getD i d) = l := by
  induction l with
  | nil => rfl
  | cons a t ih =>
    rw [List.length_cons, List.range_succ_eq_map, List.map_cons, List.map_map]
    refine congrArg₂ List.cons rfl ?_
    have h : ((fun i => List.getD (a :: t) i d) ∘ Nat.succ) = fun i => t.getD i d := by
      funext i
      simp [List.getD]
    rw [h, ih]

theorem find?_ext {p q : α → Bool} (l : List α) (h : ∀ x ∈ l, p x = q x) :
    l.find? p = l.find? q := by
  induction l with
  | nil => rfl
  | cons a t ih =>
    have ha := h a (by simp)
    rw [List.find?_cons, List.find?_cons, ha]
    cases q a with
    | true => rfl
    | false => exact ih (fun x hx => h x (by simp [hx]))

theorem find?_unique {p : α → Bool} (l : List α) (i : α) (hi : i ∈ l)
    (hp : p i = true) (huniq : ∀ x ∈ l, p x = true → x = i) :
    l.find? p = some i := by
  induction l with
  | nil => cases hi
  | cons a t ih =>
    rw [List.find?_cons]
    cases hpa : p a with
    | true => rw [huniq a (by simp) hpa]
    | false =>
      have hne : i ≠ a := fun he => by rw [he] at hp; rw [hp] at hpa; cases hpa
      have hit : i ∈ t := by
        cases hi with
        | head => exact absurd rfl hne
        | tail _ h => exact h
      exact ih hit (fun x hx hpx => huniq x (by simp [hx]) hpx)

end ListAux

/-! ## Sector-store lemmas. -/

namespace SD

@[simp] theorem upd_same (f : Nat → α) (i : Nat) (v : α) : upd f i v i = v := by
  simp [upd]

theorem upd_other (f : Nat → α) (i j : Nat) (v : α) (h : j ≠ i) : upd f i v j = f j := by
  simp [upd, h]

theorem ensure_ready {st : SDState} (h : st.ready = true) :
    ensure_sd_open st = (true, st) := by
  simp [ensure_sd_open, h]

theorem ovRead_of_find_some {st : SDState} {s i : Nat}
    (h : overlay_find st s = some i) : ovRead st s = st.overlayData i := by
  unfold ovRead
  rw [h]

theorem ovRead_of_find_none {st : SDState} {s : Nat}
    (h : overlay_find st s = none) : ovRead st s = st.diskBin s := by
  unfold ovRead
  rw [h]

theorem ov_find_some_spec {st : SDState} {s i : Nat}
    (h : overlay_find st s = some i) :
    i < MAX_OVERLAY_SECTORS ∧ st.overlayIds i = s % U16MOD := by
  refine ⟨List.mem_range.mp (List.mem_of_find?_eq_some h), ?_⟩
  have := List.find?_some h
  simpa using this

theorem ov_find_none_iff {st : SDState} {s : Nat} :
    overlay_find st s = none ↔
      ∀ i, i < MAX_OVERLAY_SECTORS → st.overlayIds i ≠ s % U16MOD := by
  rw [overlay_find, List.find?_eq_none]
  constructor
  · intro h i hi he
    have := h i (List.mem_range.mpr hi)
    simp [he] at this
  · intro h i hi hbe
    exact h i (List.mem_range.mp hi) (by simpa using hbe)

/-- `overlay_get_or_create` success followed by the payload copy:
the requested sector now reads as the payload, every sector with a
different non-free 16-bit tag reads as before, and well-formedness and all
non-overlay fields are preserved. -/
theorem goc_some_spec {st : SDState} {a idx : Nat} {st1 : SDState}
    (hwf : OvWF st)
    (h : overlay_get_or_create st a = (some idx, st1))
    (payload : Sector) (st2 : SDState)
    (hst2 : st2 = { st1 with overlayData := upd st1.overlayData idx payload }) :
    OvWF st2 ∧
    st2.imgRam = st.imgRam ∧ st2.ready = st.ready ∧
    st2.sectorCount = st.sectorCount ∧ st2.diskBin = st.diskBin ∧
    ovRead st2 a = payload ∧
    (∀ t, t % U16MOD ≠ FREE16 → t % U16MOD ≠ a % U16MOD →
      ovRead st2 t = ovRead st t) := by
  unfold overlay_get_or_create at h
  cases hfind : overlay_find st a with
  | some j =>
    rw [hfind] at h
    rw [Prod.mk.injEq] at h
    obtain ⟨h1, h2⟩ := h
    rw [Option.some.injEq] at h1
    rw [← h2, ← h1] at hst2
    subst hst2
    obtain ⟨hjlt, hjid⟩ := ov_find_some_spec hfind
    have hfeq : ∀ x, overlay_find { st with overlayData := upd st.overlayData j payload } x
        = overlay_find st x := fun _ => rfl
    refine ⟨hwf, rfl, rfl, rfl, rfl, ?_, ?_⟩
    · rw [ovRead_of_find_some ((hfeq a).trans hfind)]
      exact upd_same _ _ _
    · intro t _ hta
      cases hft : overlay_find st t with
      | none =>
        rw [ovRead_of_find_none ((hfeq t).trans hft), ovRead_of_find_none hft]
      | some k =>
        rw [ovRead_of_find_some ((hfeq t).trans hft), ovRead_of_find_some hft]
        obtain ⟨-, hkid⟩ := ov_find_some_spec hft
        have hkj : k ≠ j := by
          intro he
          rw [he, hjid] at hkid
          exact hta hkid.symm
        exact upd_other _ _ _ _ hkj
  | none =>
    rw [hfind] at h
    cases hfree : (List.range MAX_OVERLAY_SECTORS).find? (fun i => st.overlayIds i == FREE16) with
    | none =>
      rw [hfree] at h
      cases h
    | some j =>
      rw [hfree] at h
      rw [Prod.mk.injEq] at h
      obtain ⟨h1, h2⟩ := h
      rw [Option.some.injEq] at h1
      rw [← h2, ← h1] at hst2
      subst hst2
      have hjlt : j < MAX_OVERLAY_SECTORS :=
        List.mem_range.mp (List.mem_of_find?_eq_some hfree)
      have hjfree : st.overlayIds j = FREE16 := by
        have := List.find?_some hfree
        simpa using this
      have hnots : ∀ i, i < MAX_OVERLAY_SECTORS → st.overlayIds i ≠ a % U16MOD :=
        ov_find_none_iff.mp hfind
      set st2 : SDState :=
        { st with
          overlayIds := upd st.overlayIds j (a % U16MOD),
          overlayData := upd (upd st.overlayData j (st.diskBin a)) j payload,
          overlayUsed := st.overlayUsed + 1 } with hst2def
      have hids : ∀ x, st2.overlayIds x = upd st.overlayIds j (a % U16MOD) x :=
        fun _ => rfl
      have hfa : overlay_find st2 a = some j := by
        refine ListAux.find?_unique _ j (List.mem_range.mpr hjlt) ?_ ?_
        · simp [hids]
        · intro x hx hpx
          by_cases hxj : x = j
          · exact hxj
          · exfalso
            have hx' : upd st.overlayIds j (a % U16MOD) x = a % U16MOD := by
              simpa using hpx
            rw [upd_other _ _ _ _ hxj] at hx'
            exact hnots x (List.mem_range.mp hx) hx'
      refine ⟨?_, rfl, rfl, rfl, rfl, ?_, ?_⟩
      · intro x hx y hy hxy hxfree
        by_cases hxj : x = j
        · by_cases hyj : y = j
          · rw [hxj, hyj]
          · rw [hids, hids, hxj, upd_same, upd_other _ _ _ _ hyj] at hxy
            exact absurd hxy.symm (hnots y hy)
        · by_cases hyj : y = j
          · rw [hids, hids, hyj, upd_same, upd_other _ _ _ _ hxj] at hxy
            exact absurd hxy (hnots x hx)
          · rw [hids, hids, upd_other _ _ _ _ hxj, upd_other _ _ _ _ hyj] at hxy
            rw [hids, upd_other _ _ _ _ hxj] at hxfree
            exact hwf x hx y hy hxy hxfree
      · rw [ovRead_of_find_some hfa]
        exact upd_same _ _ _
      · intro t htfree hta
        have hfeq : overlay_find st2 t = overlay_find st t := by
          refine ListAux.find?_ext _ ?_
          intro x _
          by_cases hxj : x = j
          · rw [hids, hxj, upd_same, hjfree]
            have h1 : (a % U16MOD == t % U16MOD) = false := by
              simp only [beq_eq_false_iff_ne]
              exact fun he => hta he.symm
            have h2 : (FREE16 == t % U16MOD) = false := by
              simp only [beq_eq_false_iff_ne]
              exact fun he => htfree he.symm
            rw [h1, h2]
          · rw [hids, upd_other _ _ _ _ hxj]
        cases hft : overlay_find st t with
        | none =>
          rw [ovRead_of_find_none (hfeq.trans hft), ovRead_of_find_none hft]
        | some k =>
          rw [ovRead_of_find_some (hfeq.trans hft), ovRead_of_find_some hft]
          obtain ⟨-, hkid⟩ := ov_find_some_spec hft
          have hkj : k ≠ j := by
            intro he
            rw [he, hjfree] at hkid
            exact htfree hkid.symm
          show upd (upd st.overlayData j (st.diskBin a)) j payload k = st.overlayData k
          rw [upd_other _ _ _ _ hkj, upd_other _ _ _ _ hkj]

/-- Failure of `overlay_get_or_create`: state untouched, tag not present,
and no free slot at all. -/
theorem goc_none_spec {st : SDState} {a : Nat} {st1 : SDState}
    (h : overlay_get_or_create st a = (none, st1)) :
    st1 = st ∧ overlay_find st a = none ∧
    (∀ j, j < MAX_OVERLAY_SECTORS → st.overlayIds j ≠ FREE16) := by
  unfold overlay_get_or_create at h
  cases hfind : overlay_find st a with
  | some j =>
    rw [hfind] at h
    cases h
  | none =>
    rw [hfind] at h
    cases hfree : (List.range MAX_OVERLAY_SECTORS).find? (fun i => st.overlayIds i == FREE16) with
    | some j =>
      rw [hfree] at h
      cases h
    | none =>
      rw [hfree] at h
      refine ⟨(congrArg Prod.snd h).symm, rfl, ?_⟩
      intro j hj he
      have := List.find?_eq_none.mp hfree j (List.mem_range.mpr hj)
      simp [he] at this

end SD

namespace SD

/-- Effect of a fully successful overlay write loop: each written sector
reads back its payload, every sector with an untouched non-free 16-bit tag
reads as before, and the non-overlay state is unchanged. -/
theorem wloop_ok :
    ∀ (c : Nat) (st : SDState) (a : Nat) (src : List Sector) (st' : SDState),
      OvWF st →
      (∀ i, i < c → (a + i) % U16MOD ≠ FREE16) →
      (∀ i j, i < c → j < c → (a + i) % U16MOD = (a + j) % U16MOD → i = j) →
      write_overlay_loop st a src c = (DRESULT.OK, st') →
      OvWF st' ∧
      st'.imgRam = st.imgRam ∧ st'.ready = st.ready ∧
      st'.sectorCount = st.sectorCount ∧ st'.diskBin = st.diskBin ∧
      (∀ i, i < c → ovRead st' (a + i) = src.getD i []) ∧
      (∀ t, t % U16MOD ≠ FREE16 → (∀ i, i < c → t % U16MOD ≠ (a + i) % U16MOD) →
        ovRead st' t = ovRead st t) := by
  intro c
  induction c with
  | zero =>
    intro st a src st' hwf _ _ hloop
    unfold write_overlay_loop at hloop
    have hst : st = st' := congrArg Prod.snd hloop
    subst hst
    exact ⟨hwf, rfl, rfl, rfl, rfl, fun i hi => absurd hi (by omega), fun _ _ _ => rfl⟩
  | succ m ih =>
    intro st a src st' hwf hfresh hdist hloop
    unfold write_overlay_loop at hloop
    cases hg : overlay_get_or_create st a with
    | mk o st1 =>
      rw [hg] at hloop
      cases o with
      | none => simp at hloop
      | some idx =>
        simp only [] at hloop
        obtain ⟨hwf2, him2, hrd2, hsc2, hdb2, hread2, hframe2⟩ :=
          goc_some_spec hwf hg (src.headD [])
            { st1 with overlayData := upd st1.overlayData idx (src.headD []) } rfl
        obtain ⟨hwf', him', hrd', hsc', hdb', hmain', hframe'⟩ :=
          ih _ (a + 1) src.tail st' hwf2
            (by
              intro i hi
              have e : a + 1 + i = a + (i + 1) := by omega
              rw [e]
              exact hfresh (i + 1) (by omega))
            (by
              intro i j hi hj heq
              have e1 : a + 1 + i = a + (i + 1) := by omega
              have e2 : a + 1 + j = a + (j + 1) := by omega
              rw [e1, e2] at heq
              have := hdist (i + 1) (j + 1) (by omega) (by omega) heq
              omega)
            hloop
        have havoid0 : ∀ i, i < m → a % U16MOD ≠ (a + 1 + i) % U16MOD := by
          intro i hi heq
          have e1 : a + 0 = a := by omega
          have e2 : a + 1 + i = a + (i + 1) := by omega
          have h0 := hdist 0 (i + 1) (by omega) (by omega) (by rw [e1]; rw [e2] at heq; exact heq)
          omega
        refine ⟨hwf', him'.trans him2, hrd'.trans hrd2, hsc'.trans hsc2,
          hdb'.trans hdb2, ?_, ?_⟩
        · intro i hi
          cases i with
          | zero =>
            have ha0 : a + 0 = a := by omega
            rw [ha0]
            have := hframe' a (hfresh 0 (by omega) |>.imp fun h => h) ?hout
            case hout =>
              intro i hik
              exact havoid0 i hik
            rw [this, hread2]
            rw [ListAux.headD_eq_getD]
          | succ i' =>
            have e : a + (i' + 1) = a + 1 + i' := by omega
            rw [e]
            have := hmain' i' (by omega)
            rw [this, ListAux.getD_tail]
        · intro t htfree havoid
          have h1 := hframe' t htfree (by
            intro i hi
            have e : a + 1 + i = a + (i + 1) := by omega
            rw [e]
            exact havoid (i + 1) (by omega))
          have h2 := hframe2 t htfree (by
            have e : a + 0 = a := by omega
            have := havoid 0 (by omega)
            rw [e] at this
            exact this)
          exact h1.trans h2

/-- Effect of an overlay write loop that runs out of slots: the result is
`RES_ERROR`, some prefix of `k < c` sectors keeps its freshly written
payload, untouched tags read as before, and at the failure point the
overlay is completely full with the failing sector absent. -/
theorem wloop_err :
    ∀ (c : Nat) (st : SDState) (a : Nat) (src : List Sector) (st' : SDState),
      OvWF st →
      (∀ i, i < c → (a + i) % U16MOD ≠ FREE16) →
      (∀ i j, i < c → j < c → (a + i) % U16MOD = (a + j) % U16MOD → i = j) →
      write_overlay_loop st a src c = (DRESULT.ERROR, st') →
      ∃ k, k < c ∧
        OvWF st' ∧
        st'.imgRam = st.imgRam ∧ st'.ready = st.ready ∧
        st'.sectorCount = st.sectorCount ∧ st'.diskBin = st.diskBin ∧
        (∀ i, i < k → ovRead st' (a + i) = src.getD i []) ∧
        (∀ t, t % U16MOD ≠ FREE16 → (∀ i, i < k → t % U16MOD ≠ (a + i) % U16MOD) →
          ovRead st' t = ovRead st t) ∧
        (∀ j, j < MAX_OVERLAY_SECTORS → st'.overlayIds j ≠ FREE16) ∧
        overlay_find st' (a + k) = none := by
  intro c
  induction c with
  | zero =>
    intro st a src st' _ _ _ hloop
    unfold write_overlay_loop at hloop
    simp at hloop
  | succ m ih =>
    intro st a src st' hwf hfresh hdist hloop
    unfold write_overlay_loop at hloop
    cases hg : overlay_get_or_create st a with
    | mk o st1 =>
      rw [hg] at hloop
      cases o with
      | none =>
        obtain ⟨hst1, hfind, hfull⟩ := goc_none_spec hg
        have hst' : st1 = st' := congrArg Prod.snd hloop
        rw [hst1] at hst'
        subst hst'
        refine ⟨0, by omega, hwf, rfl, rfl, rfl, rfl,
          fun i hi => absurd hi (by omega), fun _ _ _ => rfl, hfull, ?_⟩
        have e : a + 0 = a := by omega
        rw [e]
        exact hfind
      | some idx =>
        simp only [] at hloop
        obtain ⟨hwf2, him2, hrd2, hsc2, hdb2, hread2, hframe2⟩ :=
          goc_some_spec hwf hg (src.headD [])
            { st1 with overlayData := upd st1.overlayData idx (src.headD []) } rfl
        obtain ⟨k', hk'lt, hwf', him', hrd', hsc', hdb', hmain', hframe', hfull', hfind'⟩ :=
          ih _ (a + 1) src.tail st' hwf2
            (by
              intro i hi
              have e : a + 1 + i = a + (i + 1) := by omega
              rw [e]
              exact hfresh (i + 1) (by omega))
            (by
              intro i j hi hj heq
              have e1 : a + 1 + i = a + (i + 1) := by omega
              have e2 : a + 1 + j = a + (j + 1) := by omega
              rw [e1, e2] at heq
              have := hdist (i + 1) (j + 1) (by omega) (by omega) heq
              omega)
            hloop
        have havoid0 : ∀ i, i < k' → a % U16MOD ≠ (a + 1 + i) % U16MOD := by
          intro i hi heq
          have e1 : a + 0 = a := by omega
          have e2 : a + 1 + i = a + (i + 1) := by omega
          have h0 := hdist 0 (i + 1) (by omega) (by omega) (by rw [e1]; rw [e2] at heq; exact heq)
          omega
        refine ⟨k' + 1, by omega, hwf', him'.trans him2, hrd'.trans hrd2,
          hsc'.trans hsc2, hdb'.trans hdb2, ?_, ?_, hfull', ?_⟩
        · intro i hi
          cases i with
          | zero =>
            have ha0 : a + 0 = a := by omega
            rw [ha0]
            have := hframe' a (hfresh 0 (by omega)) (fun i hik => havoid0 i hik)
            rw [this, hread2, ListAux.headD_eq_getD]
          | succ i' =>
            have e : a + (i' + 1) = a + 1 + i' := by omega
            rw [e]
            rw [hmain' i' (by omega), ListAux.getD_tail]
        · intro t htfree havoid
          have h1 := hframe' t htfree (by
            intro i hi
            have e : a + 1 + i = a + (i + 1) := by omega
            rw [e]
            exact havoid (i + 1) (by omega))
          have h2 := hframe2 t htfree (by
            have e : a + 0 = a := by omega
            have := havoid 0 (by omega)
            rw [e] at this
            exact this)
          exact h1.trans h2
        · have e : a + 1 + k' = a + (k' + 1) := by omega
          rw [← e]
          exact hfind'

end SD

namespace SD

/-- Reading a single valid sector in overlay mode yields its `ovRead`
resolution. -/
theorem read_one {st : SDState} {t : Nat} (hready : st.ready = true)
    (hovl : st.imgRam = none) (ht : t < st.sectorCount) :
    Read_SD_sectors st t 1 false = (DRESULT.OK, [ovRead st t]) := by
  unfold Read_SD_sectors
  rw [ensure_ready hready]
  have h1 : ¬ (st.sectorCount ≤ t) := by omega
  have h2 : ¬ (st.sectorCount - t < 1) := by omega
  have hr1 : List.range 1 = [0] := rfl
  simp [h1, h2, hovl, hr1]

/-- When the overlay has no free slot left, a successful
`overlay_get_or_create` can only have found an existing slot. -/
theorem goc_full_spec {st : SDState} {a idx : Nat} {st1 : SDState}
    (h : overlay_get_or_create st a = (some idx, st1))
    (hnofree : ∀ i, i < MAX_OVERLAY_SECTORS → st.overlayIds i ≠ FREE16) :
    st1 = st ∧ overlay_find st a = some idx := by
  unfold overlay_get_or_create at h
  cases hfind : overlay_find st a with
  | some j =>
    rw [hfind] at h
    rw [Prod.mk.injEq] at h
    obtain ⟨h1, h2⟩ := h
    rw [Option.some.injEq] at h1
    exact ⟨h2.symm, by rw [h1]⟩
  | none =>
    rw [hfind] at h
    cases hfree : (List.range MAX_OVERLAY_SECTORS).find? (fun i => st.overlayIds i == FREE16) with
    | none =>
      rw [hfree] at h
      cases h
    | some j =>
      exfalso
      have hjlt : j < MAX_OVERLAY_SECTORS :=
        List.mem_range.mp (List.mem_of_find?_eq_some hfree)
      have hjfree : st.overlayIds j = FREE16 := by
        have := List.find?_some hfree
        simpa using this
      exact hnofree j hjlt hjfree

/-- Claim C1 (amended): for every sector range that passes validation,
`write` followed by `read` of the same range returns exactly the written
sectors — unconditionally in full-copy mode, and in overlay mode whenever
the write succeeded (all written sectors fit) and no written sector is
congruent to `0xFFFF` modulo 2^16 (automatic for any store of at most
65535 sectors).  Without that proviso the claim fails, see the
counterexample. -/
theorem C1_write_read_roundtrip (st : SDState) (a c : Nat) (src : List Sector)
    (hready : st.ready = true)
    (hc0 : c ≠ 0) (hcu : c ≤ 65535)
    (ha : a < st.sectorCount) (hrange : c ≤ st.sectorCount - a)
    (hlen : src.length = c) :
    (st.imgRam.isSome →
      (Write_SD_sectors st a c false src).1 = DRESULT.OK ∧
      (Read_SD_sectors (Write_SD_sectors st a c false src).2 a c false).2 = src) ∧
    (st.imgRam = none → OvWF st →
      (∀ i, i < c → (a + i) % U16MOD ≠ FREE16) →
      (Write_SD_sectors st a c false src).1 = DRESULT.OK →
      (Read_SD_sectors (Write_SD_sectors st a c false src).2 a c false).2 = src) := by
  have h1 : ¬ (st.sectorCount ≤ a) := by omega
  have h2 : ¬ (st.sectorCount - a < c) := by omega
  constructor
  · intro hsome
    obtain ⟨ram, hram⟩ := Option.isSome_iff_exists.mp hsome
    have hW : Write_SD_sectors st a c false src =
        (DRESULT.OK, { st with imgRam := some (imgWrite ram a c src) }) := by
      unfold Write_SD_sectors
      rw [ensure_ready hready]
      simp [hc0, h1, h2, hram]
    rw [hW]
    refine ⟨rfl, ?_⟩
    unfold Read_SD_sectors
    rw [ensure_ready (show ({ st with imgRam := some (imgWrite ram a c src) } : SDState).ready = true from hready)]
    simp only [Bool.not_true, Bool.false_or, Bool.false_eq_true, if_false]
    rw [if_neg (by simpa using hc0), if_neg (by simpa using h1), if_neg (by simpa using h2)]
    simp only []
    have hpt : ∀ i ∈ List.range c, imgWrite ram a c src (a + i) = src.getD i [] := by
      intro i hi
      have hic := List.mem_range.mp hi
      unfold imgWrite
      rw [if_pos ⟨by omega, by omega⟩]
      congr 1
      omega
    rw [List.map_congr_left hpt, ← hlen]
    exact ListAux.map_range_getD src []
  · intro hnone hwf hfresh hok
    have hW : Write_SD_sectors st a c false src = write_overlay_loop st a src c := by
      unfold Write_SD_sectors
      rw [ensure_ready hready]
      simp [hc0, h1, h2, hnone]
    rw [hW] at hok ⊢
    cases hl : write_overlay_loop st a src c with
    | mk r st' =>
      rw [hl] at hok
      simp only [] at hok
      rw [hok] at hl
      have hdist : ∀ i j, i < c → j < c →
          (a + i) % U16MOD = (a + j) % U16MOD → i = j := by
        intro i j hi hj heq
        simp only [U16MOD] at heq
        omega
      obtain ⟨hwf', him', hrd', hsc', hdb', hmain', hframe'⟩ :=
        wloop_ok c st a src st' hwf hfresh hdist hl
      show (Read_SD_sectors st' a c false).2 = src
      unfold Read_SD_sectors
      rw [ensure_ready (by rw [hrd']; exact hready)]
      have h1' : ¬ (st'.sectorCount ≤ a) := by rw [hsc']; omega
      have h2' : ¬ (st'.sectorCount - a < c) := by rw [hsc']; omega
      simp only [Bool.not_true, Bool.false_or, Bool.false_eq_true, if_false]
      rw [if_neg (by simpa using hc0), if_neg (by simpa using h1'), if_neg (by simpa using h2')]
      rw [him'.trans hnone]
      simp only []
      have hpt : ∀ i ∈ List.range c, ovRead st' (a + i) = src.getD i [] :=
        fun i hi => hmain' i (List.mem_range.mp hi)
      rw [List.map_congr_left hpt, ← hlen]
      exact ListAux.map_range_getD src []

/-- Counterexample to claim C1 as stated: on a 65537-sector store in
overlay mode, writing sectors 65535 and 65536 succeeds, but sector 65535
collides with the free-slot marker `0xFFFF` after `u16` truncation and the
read-back differs from what was written. -/
theorem C1_counterexample :
    (Write_SD_sectors (ovlState 65537) 65535 2 false [[1], [2]]).1 = DRESULT.OK ∧
    (Read_SD_sectors (Write_SD_sectors (ovlState 65537) 65535 2 false [[1], [2]]).2
      65535 2 false).2 ≠ [[1], [2]] := by
  constructor
  · decide
  · decide

/-- Witness for C1 on concrete stores: a 16-sector full-copy store and a
16-sector overlay store both round-trip a two-sector write at sector 3. -/
theorem C1_witness :
    ((Write_SD_sectors (fullState 16) 3 2 false [[9], [8]]).1 = DRESULT.OK ∧
     (Read_SD_sectors (Write_SD_sectors (fullState 16) 3 2 false [[9], [8]]).2
       3 2 false).2 = [[9], [8]]) ∧
    (Read_SD_sectors (Write_SD_sectors (ovlState 16) 3 2 false [[9], [8]]).2
       3 2 false).2 = [[9], [8]] := by
  constructor
  · exact (C1_write_read_roundtrip (fullState 16) 3 2 [[9], [8]] rfl (by omega) (by omega)
      (by decide) (by decide) rfl).1 rfl
  · exact (C1_write_read_roundtrip (ovlState 16) 3 2 [[9], [8]] rfl (by omega) (by omega)
      (by decide) (by decide) rfl).2 rfl
      (by intro i _ j _ _ hne; exact absurd rfl hne) (by decide) (by decide)

end SD

namespace SD

/-- Claim C2 (amended): in overlay mode, when a multi-sector write runs out
of overlay capacity mid-request (result `RES_ERROR`, the code that the
spec's `CapacityExceeded` maps to), there is a `k < count` such that the
first `k` sectors keep their freshly written contents (no rollback), every
other sector whose 16-bit tag differs from the written prefix and from the
free marker still reads its previous value, and at the failure point the
overlay is completely full with the failing sector absent.  The provisos
on 16-bit tags are forced by the truncation counterexample. -/
theorem C2_overlay_capacity (st : SDState) (a c : Nat) (src : List Sector) (st' : SDState)
    (hready : st.ready = true) (hovl : st.imgRam = none) (hwf : OvWF st)
    (hc0 : c ≠ 0) (hcu : c ≤ 65535)
    (ha : a < st.sectorCount) (hrange : c ≤ st.sectorCount - a)
    (hfresh : ∀ i, i < c → (a + i) % U16MOD ≠ FREE16)
    (herr : Write_SD_sectors st a c false src = (DRESULT.ERROR, st')) :
    ∃ k, k < c ∧
      (∀ i, i < k → (Read_SD_sectors st' (a + i) 1 false).2 = [src.getD i []]) ∧
      (∀ t, t < st.sectorCount → t % U16MOD ≠ FREE16 →
        (∀ i, i < k → t % U16MOD ≠ (a + i) % U16MOD) →
        (Read_SD_sectors st' t 1 false).2 = [ovRead st t]) ∧
      (∀ j, j < MAX_OVERLAY_SECTORS → st'.overlayIds j ≠ FREE16) ∧
      overlay_find st' (a + k) = none := by
  have h1 : ¬ (st.sectorCount ≤ a) := by omega
  have h2 : ¬ (st.sectorCount - a < c) := by omega
  have hW : Write_SD_sectors st a c false src = write_overlay_loop st a src c := by
    unfold Write_SD_sectors
    rw [ensure_ready hready]
    simp [hc0, h1, h2, hovl]
  rw [hW] at herr
  have hdist : ∀ i j, i < c → j < c →
      (a + i) % U16MOD = (a + j) % U16MOD → i = j := by
    intro i j hi hj heq
    simp only [U16MOD] at heq
    omega
  obtain ⟨k, hk, hwf', him', hrd', hsc', hdb', hmain', hframe', hfull', hfind'⟩ :=
    wloop_err c st a src st' hwf hfresh hdist herr
  refine ⟨k, hk, ?_, ?_, hfull', hfind'⟩
  · intro i hik
    rw [read_one (by rw [hrd']; exact hready) (him'.trans hovl) (by rw [hsc']; omega)]
    rw [hmain' i hik]
  · intro t htlt htfree havoid
    rw [read_one (by rw [hrd']; exact hready) (him'.trans hovl) (by rw [hsc']; omega)]
    rw [hframe' t htfree havoid]

/-- Counterexample to claim C2 as stated: with 255 occupied overlay slots
and one free slot whose marker collides with sector 65535's truncated tag,
a 3-sector write at 65535 exhausts the overlay, and the first sector
written before exhaustion does NOT keep its new contents. -/
theorem C2_counterexample :
    (Write_SD_sectors (ovlStateIds 65538 (fun i => if i == 0 then 65535 else 300 + i))
        65535 3 false [[7], [8], [9]]).1 = DRESULT.ERROR ∧
    (Read_SD_sectors
        (Write_SD_sectors (ovlStateIds 65538 (fun i => if i == 0 then 65535 else 300 + i))
          65535 3 false [[7], [8], [9]]).2 65535 1 false).2 ≠ [[7]] := by
  constructor
  · decide
  · decide

/-- Witness for C2: a store whose overlay has a single free slot left;
writing two fresh sectors fails mid-way with the documented partial
effect. -/
theorem C2_witness :
    ∃ k, k < 2 ∧
      (∀ i, i < k →
        (Read_SD_sectors
          (Write_SD_sectors (ovlStateIds 100 (fun i => if i < 255 then 1000 + i else FREE16))
            5 2 false [[7], [8]]).2 (5 + i) 1 false).2 = [[[7], [8]].getD i []]) ∧
      (∀ t, t < (ovlStateIds 100 (fun i => if i < 255 then 1000 + i else FREE16)).sectorCount →
        t % U16MOD ≠ FREE16 →
        (∀ i, i < k → t % U16MOD ≠ (5 + i) % U16MOD) →
        (Read_SD_sectors
          (Write_SD_sectors (ovlStateIds 100 (fun i => if i < 255 then 1000 + i else FREE16))
            5 2 false [[7], [8]]).2 t 1 false).2 =
          [ovRead (ovlStateIds 100 (fun i => if i < 255 then 1000 + i else FREE16)) t]) ∧
      (∀ j, j < MAX_OVERLAY_SECTORS →
        (Write_SD_sectors (ovlStateIds 100 (fun i => if i < 255 then 1000 + i else FREE16))
          5 2 false [[7], [8]]).2.overlayIds j ≠ FREE16) ∧
      overlay_find
        (Write_SD_sectors (ovlStateIds 100 (fun i => if i < 255 then 1000 + i else FREE16))
          5 2 false [[7], [8]]).2 (5 + k) = none := by
  have h1 : (Write_SD_sectors (ovlStateIds 100 (fun i => if i < 255 then 1000 + i else FREE16))
      5 2 false [[7], [8]]).1 = DRESULT.ERROR := by decide
  have herr : Write_SD_sectors (ovlStateIds 100 (fun i => if i < 255 then 1000 + i else FREE16))
      5 2 false [[7], [8]] =
      (DRESULT.ERROR,
        (Write_SD_sectors (ovlStateIds 100 (fun i => if i < 255 then 1000 + i else FREE16))
          5 2 false [[7], [8]]).2) := by
    rw [← h1]
  have hwfw : OvWF (ovlStateIds 100 (fun i => if i < 255 then 1000 + i else FREE16)) := by
    intro i hi j hj heq hne
    by_cases hi255 : i < 255
    · by_cases hj255 : j < 255
      · simp only [ovlStateIds, if_pos hi255, if_pos hj255] at heq
        omega
      · simp only [ovlStateIds, if_pos hi255, if_neg hj255, FREE16] at heq
        omega
    · exfalso
      simp only [ovlStateIds, if_neg hi255] at hne
      exact hne rfl
  exact C2_overlay_capacity _ 5 2 [[7], [8]] _ rfl rfl hwfw (by omega)
    (by omega) (by decide) (by decide) (by decide) herr

/-- Claim C4: sector-store reads and writes reject a zero count and any
range reaching past the sector count with `RES_PARERR` (the code both the
spec's `InvalidArgument` and `OutOfRange` map to), copying nothing: the
read output is empty and the write leaves the state exactly as it was. -/
theorem C4_validation (st : SDState) (a c : Nat) (src : List Sector)
    (hready : st.ready = true)
    (h : c = 0 ∨ st.sectorCount ≤ a ∨ st.sectorCount < a + c) :
    Read_SD_sectors st a c false = (DRESULT.PARERR, []) ∧
    Write_SD_sectors st a c false src = (DRESULT.PARERR, st) := by
  unfold Read_SD_sectors Write_SD_sectors
  rw [ensure_ready hready]
  by_cases hc : c = 0
  · simp [hc]
  · have hc' : (c == 0) = false := by simp [hc]
    by_cases hsa : st.sectorCount ≤ a
    · simp [hc', hsa]
    · have hr : st.sectorCount - a < c := by omega
      simp [hc', hsa, hr]

/-- Witness for C4: out-of-range request on a 4-sector overlay store. -/
theorem C4_witness :
    Read_SD_sectors (ovlState 4) 9 1 false = (DRESULT.PARERR, []) ∧
    Write_SD_sectors (ovlState 4) 9 1 false [[1]] = (DRESULT.PARERR, ovlState 4) :=
  C4_validation (ovlState 4) 9 1 [[1]] rfl (Or.inr (Or.inl (by decide)))

/-- Claim C5 (amended): in overlay mode, after a successful single-sector
write to `s`, any other valid sector `t` that has never been written
(absent from the overlay) still reads the base image's content, provided
its 16-bit tag differs from `s`'s (forced by the truncation
counterexample); and the written sector itself reads back the new
payload — reads resolve each sector to the overlay entry when present and
to the base image otherwise. -/
theorem C5_overlay_independent (st : SDState) (s t : Nat) (p : Sector)
    (hready : st.ready = true) (hovl : st.imgRam = none) (hwf : OvWF st)
    (hs : s < st.sectorCount) (ht : t < st.sectorCount)
    (hst : t % U16MOD ≠ s % U16MOD)
    (htn : overlay_find st t = none)
    (hok : (Write_SD_sectors st s 1 false [p]).1 = DRESULT.OK) :
    (Read_SD_sectors (Write_SD_sectors st s 1 false [p]).2 t 1 false).2 = [st.diskBin t] ∧
    (Read_SD_sectors (Write_SD_sectors st s 1 false [p]).2 s 1 false).2 = [p] := by
  have h1 : ¬ (st.sectorCount ≤ s) := by omega
  have h2 : ¬ (st.sectorCount - s < 1) := by omega
  have hW : Write_SD_sectors st s 1 false [p] = write_overlay_loop st s [p] 1 := by
    unfold Write_SD_sectors
    rw [ensure_ready hready]
    simp [h1, h2, hovl]
  rw [hW] at hok ⊢
  unfold write_overlay_loop at hok ⊢
  cases hg : overlay_get_or_create st s with
  | mk o st1 =>
    cases o with
    | none =>
      rw [hg] at hok
      exact absurd (show DRESULT.ERROR = DRESULT.OK from hok) (by decide)
    | some idx =>
      clear hok
      show (Read_SD_sectors
          { st1 with overlayData := upd st1.overlayData idx ([p].headD []) } t 1 false).2
            = [st.diskBin t] ∧
        (Read_SD_sectors
          { st1 with overlayData := upd st1.overlayData idx ([p].headD []) } s 1 false).2
            = [p]
      obtain ⟨hwf2, him2, hrd2, hsc2, hdb2, hread2, hframe2⟩ :=
        goc_some_spec hwf hg ([p].headD [])
          { st1 with overlayData := upd st1.overlayData idx ([p].headD []) } rfl
      have hready2 : ({ st1 with overlayData := upd st1.overlayData idx ([p].headD []) } : SDState).ready = true := by
        rw [hrd2]; exact hready
      have hovl2 : ({ st1 with overlayData := upd st1.overlayData idx ([p].headD []) } : SDState).imgRam = none := by
        rw [him2]; exact hovl
      have hts : t < ({ st1 with overlayData := upd st1.overlayData idx ([p].headD []) } : SDState).sectorCount := by
        rw [hsc2]; exact ht
      have hss : s < ({ st1 with overlayData := upd st1.overlayData idx ([p].headD []) } : SDState).sectorCount := by
        rw [hsc2]; exact hs
      constructor
      · rw [read_one hready2 hovl2 hts]
        have htval : ovRead { st1 with overlayData := upd st1.overlayData idx ([p].headD []) } t
            = st.diskBin t := by
          by_cases htf : t % U16MOD = FREE16
          · -- no free slot can exist, so the write found an existing slot
            have hnofree : ∀ i, i < MAX_OVERLAY_SECTORS → st.overlayIds i ≠ FREE16 := by
              intro i hi
              have := ov_find_none_iff.mp htn i hi
              rw [htf] at this
              exact this
            obtain ⟨hst1, hfs⟩ := goc_full_spec hg hnofree
            have hfeq : overlay_find
                { st1 with overlayData := upd st1.overlayData idx ([p].headD []) } t
                = overlay_find st t := by rw [hst1]; rfl
            rw [ovRead_of_find_none (hfeq.trans htn), hst1]
          · rw [hframe2 t htf hst, ovRead_of_find_none htn]
        rw [htval]
      · rw [read_one hready2 hovl2 hss, hread2]
        rfl

/-- Counterexample to claim C5 as stated: on a 65537-sector store, sectors
0 and 65536 share a 16-bit overlay tag; after writing sector 0, reading the
never-written sector 65536 returns the freshly written payload instead of
the base image's content. -/
theorem C5_counterexample :
    overlay_find (ovlState 65537) 65536 = none ∧
    (Write_SD_sectors (ovlState 65537) 0 1 false [[7]]).1 = DRESULT.OK ∧
    (Read_SD_sectors (Write_SD_sectors (ovlState 65537) 0 1 false [[7]]).2
      65536 1 false).2 ≠ [(ovlState 65537).diskBin 65536] := by
  refine ⟨by decide, by decide, by decide⟩

/-- Witness for C5: on a 16-sector overlay store, writing sector 2 leaves
the untouched sector 5 reading the base image, and sector 2 reads back the
payload. -/
theorem C5_witness :
    (Read_SD_sectors (Write_SD_sectors (ovlState 16) 2 1 false [[3]]).2 5 1 false).2
      = [(ovlState 16).diskBin 5] ∧
    (Read_SD_sectors (Write_SD_sectors (ovlState 16) 2 1 false [[3]]).2 2 1 false).2
      = [[3]] :=
  C5_overlay_independent (ovlState 16) 2 5 [3] rfl rfl
    (by intro i _ j _ _ hne; exact absurd rfl hne)
    (by decide) (by decide) (by decide) (by decide) (by decide)

/-- Claim C10: a NULL data buffer makes both sector-store entry points fail
with the generic `RES_ERROR` before any other validation: the zero-count
and range checks are never consulted, so even an out-of-range request with
a NULL buffer yields `RES_ERROR`, never `RES_PARERR`, and nothing is
copied. -/
theorem C10_null_buffer (st : SDState) (a c : Nat) (src : List Sector) :
    Read_SD_sectors st a c true = (DRESULT.ERROR, []) ∧
    (Write_SD_sectors st a c true src).1 = DRESULT.ERROR ∧
    DRESULT.ERROR ≠ DRESULT.PARERR := by
  refine ⟨?_, ?_, by simp⟩
  · unfold Read_SD_sectors
    simp
  · unfold Write_SD_sectors
    simp

end SD

namespace ListAux

theorem getD_map_range (f : Nat → α) (n j : Nat) (d : α) (h : j < n) :
    ((List.range n).map f).getD j d = f j := by
  rw [List.getD_eq_getElem?_getD, List.getElem?_map, List.getElem?_range h]
  rfl

theorem getD_replicate (n j : Nat) (d v : α) (h : j < n) :
    (List.replicate n v).getD j d = v := by
  rw [List.getD_eq_getElem?_getD, List.getElem?_replicate]
  simp [h]

end ListAux

namespace FakeFS

theorem nodeAt_updateNode_same (st : FsState) (i : Nat) (f : FsNode → FsNode)
    (h : i < st.pool.length) : nodeAt (updateNode st i f) i = f (nodeAt st i) := by
  show (st.pool.set i (f (nodeAt st i))).getD i default = f (nodeAt st i)
  rw [List.getD_eq_getElem?_getD, List.getElem?_set_eq_of_lt _ h]
  rfl

theorem nodeAt_updateNode_other (st : FsState) (i j : Nat) (f : FsNode → FsNode)
    (h : j ≠ i) : nodeAt (updateNode st i f) j = nodeAt st j := by
  show (st.pool.set i (f (nodeAt st i))).getD j default = st.pool.getD j default
  rw [List.getD_eq_getElem?_getD, List.getElem?_set_ne (Ne.symm h),
    ← List.getD_eq_getElem?_getD]

/-- Claim C3 (code bug): `f_open` with `FA_CREATE_NEW` on an existing file
does NOT fail with `FR_EXIST` — the exclusive-creation check sits inside
the branch taken only when the path failed to resolve, so an existing
target is simply opened: on the default layout, opening
`/SYSTEM/RECENT.TXT` (which exists) with `FA_CREATE_NEW` returns `FR_OK`
with the cursor at 0. -/
theorem C3_create_new_opens_existing :
    (fs_resolve (f_mount initState) "/SYSTEM/RECENT.TXT").isSome = true ∧
    (f_open (f_mount initState) filZero "/SYSTEM/RECENT.TXT" FA_CREATE_NEW).1 = FR_OK ∧
    (f_open (f_mount initState) filZero "/SYSTEM/RECENT.TXT" FA_CREATE_NEW).1 ≠ FR_EXIST ∧
    (f_open (f_mount initState) filZero "/SYSTEM/RECENT.TXT" FA_CREATE_NEW).2.2.fptr = 0 := by
  refine ⟨by decide, by decide, by decide, by decide⟩

/-- Claim C6: `fs_assign_clusters` gives a file the contiguous run
`[nextCluster, nextCluster + max 1 ceil(size/clusterSizeBytes))` with
`clusterSizeBytes = csize * 512` and advances the counter monotonically;
`Get_NextCluster` on a file of size exactly `2 * clusterSizeBytes` returns
`start + 1` from its start cluster and the end-of-chain marker `0xFFFF`
from `start + 1`; and a fresh mount restarts allocation at cluster 2 (the
first file created, RECENT.TXT, gets start cluster 2). -/
theorem C6_cluster_arithmetic (st : FsState) (ni s : Nat)
    (hplen : st.pool.length = FS_MAX_NODES) (hni : ni < FS_MAX_NODES)
    (hfile : (nodeAt st ni).attr &&& AM_DIR = 0)
    (hcs : 0 < st.fsCsize * 512)
    (hcs32 : 3 * (st.fsCsize * 512) ≤ SD.U32)
    (hsz : (nodeAt st ni).size + st.fsCsize * 512 ≤ SD.U32)
    (hnc : st.nextCluster +
      ((nodeAt st ni).size + st.fsCsize * 512 - 1) / (st.fsCsize * 512) + 1 < SD.U32)
    (hm : st.mounted = true) (hs0 : s ≠ 0) :
    ((nodeAt (fs_assign_clusters st ni) ni).startCluster = st.nextCluster ∧
     (fs_assign_clusters st ni).nextCluster = st.nextCluster +
       max 1 (((nodeAt st ni).size + st.fsCsize * 512 - 1) / (st.fsCsize * 512))) ∧
    (Get_NextCluster st ⟨2 * (st.fsCsize * 512), s⟩ s = s + 1 ∧
     Get_NextCluster st ⟨2 * (st.fsCsize * 512), s⟩ (s + 1) = 65535) ∧
    ((nodeAt (f_mount initState) 4).name = "RECENT.TXT" ∧
     (nodeAt (f_mount initState) 4).startCluster = 2) := by
  have hguard : ¬ ((nodeAt st ni).attr &&& AM_DIR ≠ 0) := not_not_intro hfile
  have hcslt : st.fsCsize * 512 < SD.U32 := by omega
  have hmod1 : st.fsCsize * 512 % SD.U32 = st.fsCsize * 512 := Nat.mod_eq_of_lt hcslt
  have hmod2 : ((nodeAt st ni).size + st.fsCsize * 512 - 1) % SD.U32
      = (nodeAt st ni).size + st.fsCsize * 512 - 1 := Nat.mod_eq_of_lt (by omega)
  have hcs0 : (st.fsCsize * 512 == 0) = false := by simpa using Nat.pos_iff_ne_zero.mp hcs
  refine ⟨⟨?_, ?_⟩, ⟨?_, ?_⟩, by decide, by decide⟩
  · simp only [fs_assign_clusters, if_neg hguard]
    show (nodeAt (updateNode st ni
      (fun n => { n with startCluster := st.nextCluster })) ni).startCluster = st.nextCluster
    rw [nodeAt_updateNode_same _ _ _ (by rw [hplen]; exact hni)]
  · simp only [fs_assign_clusters, if_neg hguard]
    show (st.nextCluster +
        (if ((nodeAt st ni).size + st.fsCsize * 512 % SD.U32 - 1) % SD.U32 /
            (st.fsCsize * 512 % SD.U32) == 0 then 1
         else ((nodeAt st ni).size + st.fsCsize * 512 % SD.U32 - 1) % SD.U32 /
            (st.fsCsize * 512 % SD.U32))) % SD.U32
      = st.nextCluster +
        max 1 (((nodeAt st ni).size + st.fsCsize * 512 - 1) / (st.fsCsize * 512))
    rw [hmod1, hmod2]
    set q := ((nodeAt st ni).size + st.fsCsize * 512 - 1) / (st.fsCsize * 512) with hq
    by_cases hz : q = 0
    · rw [hz]
      have hone : (if ((0 : Nat) == 0) = true then 1 else (0 : Nat)) = 1 := rfl
      rw [hone, Nat.max_eq_left (by omega), Nat.mod_eq_of_lt (by omega)]
    · have h1q : 1 ≤ q := Nat.one_le_iff_ne_zero.mpr hz
      have hzq : (q == 0) = false := by simpa using hz
      rw [hzq]
      simp only [Bool.false_eq_true, if_false]
      rw [Nat.max_eq_right h1q, Nat.mod_eq_of_lt (by omega)]
  · simp only [Get_NextCluster, hm, Bool.not_true, Bool.false_eq_true, if_false]
    rw [hmod1, hcs0]
    simp only [Bool.false_eq_true, if_false]
    have h3 : 2 * (st.fsCsize * 512) + st.fsCsize * 512 - 1
        = (st.fsCsize * 512 - 1) + st.fsCsize * 512 * 2 := by omega
    rw [Nat.mod_eq_of_lt (by omega), h3, Nat.add_mul_div_left _ _ hcs,
      Nat.div_eq_of_lt (by omega)]
    rw [if_pos hs0, if_neg (Nat.lt_irrefl s)]
    have hv : (if ((0 + 2 : Nat) == 0) = true then 1 else (0 + 2 : Nat)) = 2 := rfl
    rw [hv, Nat.sub_self, if_neg (by omega)]
  · simp only [Get_NextCluster, hm, Bool.not_true, Bool.false_eq_true, if_false]
    rw [hmod1, hcs0]
    simp only [Bool.false_eq_true, if_false]
    have h3 : 2 * (st.fsCsize * 512) + st.fsCsize * 512 - 1
        = (st.fsCsize * 512 - 1) + st.fsCsize * 512 * 2 := by omega
    rw [Nat.mod_eq_of_lt (by omega), h3, Nat.add_mul_div_left _ _ hcs,
      Nat.div_eq_of_lt (by omega)]
    rw [if_pos hs0, if_neg (by omega)]
    have hv : (if ((0 + 2 : Nat) == 0) = true then 1 else (0 + 2 : Nat)) = 2 := rfl
    rw [hv, show s + 1 - s = 1 from by omega, if_pos (by omega)]

end FakeFS

namespace FakeFS

/-- Witness for C6 on the freshly mounted default layout: re-assigning
clusters to `Readme.txt` (node 8, 2048 bytes = one 2048-byte cluster)
starts at the current counter and advances it by one; a file of exactly
two clusters starting at cluster 7 chains 7 → 8 → end marker; and
RECENT.TXT, the first file created by `f_mount`, starts at cluster 2. -/
theorem C6_witness :
    ((nodeAt (fs_assign_clusters (f_mount initState) 8) 8).startCluster
        = (f_mount initState).nextCluster ∧
     (fs_assign_clusters (f_mount initState) 8).nextCluster
        = (f_mount initState).nextCluster +
          max 1 (((nodeAt (f_mount initState) 8).size + (f_mount initState).fsCsize * 512 - 1)
            / ((f_mount initState).fsCsize * 512))) ∧
    (Get_NextCluster (f_mount initState) ⟨2 * ((f_mount initState).fsCsize * 512), 7⟩ 7
        = 7 + 1 ∧
     Get_NextCluster (f_mount initState) ⟨2 * ((f_mount initState).fsCsize * 512), 7⟩ (7 + 1)
        = 65535) ∧
    ((nodeAt (f_mount initState) 4).name = "RECENT.TXT" ∧
     (nodeAt (f_mount initState) 4).startCluster = 2) :=
  C6_cluster_arithmetic (f_mount initState) 8 7 (by decide) (by decide) (by decide)
    (by decide) (by decide) (by decide) (by decide) (by decide) (by decide)

/-- Claim C7: with the filesystem mounted and a handle whose node pointer
is valid, `f_read` always returns `FR_OK`; it reports and copies exactly
`min btr (size - cursor)` bytes, taken from the node's content buffer when
present and all zero otherwise, and advances the cursor by that amount; at
or past end-of-file it copies nothing, reports 0 and leaves the handle
unchanged — still `FR_OK`, not an error. -/
theorem C7_read_bounds (st : FsState) (fp : FIL) (btr ni : Nat)
    (hm : st.mounted = true) (hp : fp.dirPtr = some ni) :
    (f_read st fp btr).1 = FR_OK ∧
    (f_read st fp btr).2.2.2 = min btr ((nodeAt st ni).size - fp.fptr) ∧
    (f_read st fp btr).2.1
      = { fp with fptr := fp.fptr + min btr ((nodeAt st ni).size - fp.fptr) } ∧
    (f_read st fp btr).2.2.1.length = min btr ((nodeAt st ni).size - fp.fptr) ∧
    (∀ j, j < min btr ((nodeAt st ni).size - fp.fptr) →
      (f_read st fp btr).2.2.1.getD j 0 =
        (match (nodeAt st ni).data with
         | some d => d.getD (fp.fptr + j) 0
         | none => 0)) ∧
    ((nodeAt st ni).size ≤ fp.fptr →
      (f_read st fp btr).2.1 = fp ∧ (f_read st fp btr).2.2.1 = []) := by
  unfold f_read
  rw [hm, hp]
  simp only [Bool.not_true, Bool.false_eq_true, if_false]
  by_cases heof : (nodeAt st ni).size ≤ fp.fptr
  · rw [if_pos heof]
    have hmin : min btr ((nodeAt st ni).size - fp.fptr) = 0 := by omega
    refine ⟨rfl, by rw [hmin], ?_, by rw [hmin]; rfl, ?_, fun _ => ⟨rfl, rfl⟩⟩
    · rw [hmin, ← hp]
      exact rfl
    · intro j hj
      rw [hmin] at hj
      exact absurd hj (by omega)
  · rw [if_neg heof]
    cases hdata : (nodeAt st ni).data with
    | some d =>
      refine ⟨rfl, rfl, rfl, ?_, ?_, fun hcon => absurd hcon heof⟩
      · show ((List.range (min btr ((nodeAt st ni).size - fp.fptr))).map
            (fun i => d.getD (fp.fptr + i) 0)).length
          = min btr ((nodeAt st ni).size - fp.fptr)
        rw [List.length_map, List.length_range]
      · intro j hj
        exact ListAux.getD_map_range _ _ _ _ hj
    | none =>
      refine ⟨rfl, rfl, rfl, ?_, ?_, fun hcon => absurd hcon heof⟩
      · show (List.replicate (min btr ((nodeAt st ni).size - fp.fptr)) 0).length
          = min btr ((nodeAt st ni).size - fp.fptr)
        rw [List.length_replicate]
      · intro j hj
        exact ListAux.getD_replicate _ _ _ _ hj

/-- Witness for C7: reading 5 bytes from a 3-byte file `[5,6,7]` with the
cursor at byte 1 returns `FR_OK`, copies the 2 bytes `[6,7]` and moves the
cursor to 3. -/
theorem C7_witness :
    (f_read exReadFS exFIL 5).1 = FR_OK ∧
    (f_read exReadFS exFIL 5).2.2.2 = min 5 ((nodeAt exReadFS 0).size - exFIL.fptr) ∧
    (f_read exReadFS exFIL 5).2.1
      = { exFIL with fptr := exFIL.fptr + min 5 ((nodeAt exReadFS 0).size - exFIL.fptr) } ∧
    (f_read exReadFS exFIL 5).2.2.1.length = min 5 ((nodeAt exReadFS 0).size - exFIL.fptr) ∧
    (∀ j, j < min 5 ((nodeAt exReadFS 0).size - exFIL.fptr) →
      (f_read exReadFS exFIL 5).2.2.1.getD j 0 =
        (match (nodeAt exReadFS 0).data with
         | some d => d.getD (exFIL.fptr + j) 0
         | none => 0)) ∧
    ((nodeAt exReadFS 0).size ≤ exFIL.fptr →
      (f_read exReadFS exFIL 5).2.1 = exFIL ∧ (f_read exReadFS exFIL 5).2.2.1 = []) :=
  C7_read_bounds exReadFS exFIL 5 0 rfl rfl

/-- Claim C9: calling `f_readdir` with a NULL `FILINFO` pointer yields no
entry; it returns `FR_OK` and resets the global iteration cursor to the
iterated directory's first child, so the next `f_readdir` call re-yields
the first entry without re-opening the directory. -/
theorem C9_readdir_null_reset (st : FsState) (d c : Nat)
    (hm : st.mounted = true) (hd : st.iterDir = some d)
    (hc : (nodeAt st d).firstChild = some c) :
    (f_readdir st true true).1 = FR_OK ∧
    (f_readdir st true true).2.2 = none ∧
    (f_readdir st true true).2.1.iterNext = some c ∧
    (f_readdir (f_readdir st true true).2.1 true false).1 = FR_OK ∧
    (f_readdir (f_readdir st true true).2.1 true false).2.2
      = some (filinfoOf (nodeAt st c)) := by
  have h1 : f_readdir st true true = (FR_OK, { st with iterNext := some c }, none) := by
    unfold f_readdir
    rw [hm]
    simp only [Bool.not_true, Bool.false_eq_true, if_false, Bool.not_false, if_true]
    rw [hd]
    exact congrArg
      (fun x => (FR_OK, { st with mounted := true, iterDir := some d, iterNext := x }, none)) hc
  rw [h1]
  have hm2 : ({ st with iterNext := some c } : FsState).mounted = true := hm
  have h2 : f_readdir { st with iterNext := some c } true false
      = (FR_OK, { st with iterNext := (nodeAt st c).nextSibling },
         some (filinfoOf (nodeAt st c))) := by
    unfold f_readdir
    rw [hm2]
    simp only [Bool.not_true, Bool.false_eq_true, if_false, Bool.not_false, if_true]
    rfl
  rw [h2]
  exact ⟨rfl, rfl, rfl, rfl, rfl⟩

/-- Witness for C9: after mounting and opening `/SYSTEM` (node 1, first
child PATCH = node 2), a NULL-info `f_readdir` resets the cursor and the
next call re-yields PATCH. -/
theorem C9_witness :
    (f_readdir (f_opendir (f_mount initState) "/SYSTEM").2.1 true true).1 = FR_OK ∧
    (f_readdir (f_opendir (f_mount initState) "/SYSTEM").2.1 true true).2.2 = none ∧
    (f_readdir (f_opendir (f_mount initState) "/SYSTEM").2.1 true true).2.1.iterNext
      = some 2 ∧
    (f_readdir (f_readdir (f_opendir (f_mount initState) "/SYSTEM").2.1 true true).2.1
      true false).1 = FR_OK ∧
    (f_readdir (f_readdir (f_opendir (f_mount initState) "/SYSTEM").2.1 true true).2.1
      true false).2.2
      = some (filinfoOf (nodeAt (f_opendir (f_mount initState) "/SYSTEM").2.1 2)) :=
  C9_readdir_null_reset (f_opendir (f_mount initState) "/SYSTEM").2.1 1 2
    (by decide) (by decide) (by decide)

end FakeFS

namespace FakeFS

/-- A sibling chain only consults the `nextSibling` fields of its members,
so it is unchanged in any state that agrees with `st` on those fields. -/
theorem childChain_congr (st st' : FsState) :
    ∀ (fuel : Nat) (cur : Option Nat),
      (∀ i, i ∈ childChain st fuel cur →
        (nodeAt st' i).nextSibling = (nodeAt st i).nextSibling) →
      childChain st' fuel cur = childChain st fuel cur := by
  intro fuel
  induction fuel with
  | zero => intro cur _; cases cur <;> rfl
  | succ f ih =>
    intro cur hagree
    cases cur with
    | none => rfl
    | some i =>
      have hi : i ∈ childChain st (f + 1) (some i) := by
        unfold childChain
        exact List.mem_cons_self _ _
      unfold childChain
      rw [hagree i hi]
      refine congrArg (List.cons i) (ih _ ?_)
      intro m hm
      refine hagree m ?_
      unfold childChain
      exact List.mem_cons_of_mem _ hm

/-- Once a chain terminates within its fuel, extra fuel is irrelevant. -/
theorem childChain_fuel_stable (st : FsState) :
    ∀ (fuel : Nat) (cur : Option Nat), chainTerm st fuel cur = true →
      ∀ g, fuel ≤ g → childChain st g cur = childChain st fuel cur := by
  intro fuel
  induction fuel with
  | zero =>
    intro cur hterm g _
    cases cur with
    | none => cases g <;> rfl
    | some i => simp [chainTerm] at hterm
  | succ f ih =>
    intro cur hterm g hg
    cases cur with
    | none => cases g <;> rfl
    | some i =>
      cases g with
      | zero => omega
      | succ g' =>
        unfold childChain
        unfold chainTerm at hterm
        rw [ih _ hterm g' (by omega)]

/-- Termination is also stable under extra fuel. -/
theorem chainTerm_mono (st : FsState) :
    ∀ (fuel : Nat) (cur : Option Nat), chainTerm st fuel cur = true →
      ∀ g, fuel ≤ g → chainTerm st g cur = true := by
  intro fuel
  induction fuel with
  | zero =>
    intro cur hterm g _
    cases cur with
    | none => cases g with | zero => exact hterm | succ _ => rfl
    | some i => simp [chainTerm] at hterm
  | succ f ih =>
    intro cur hterm g hg
    cases cur with
    | none => cases g with | zero => rfl | succ _ => rfl
    | some i =>
      cases g with
      | zero => omega
      | succ g' =>
        unfold chainTerm at hterm ⊢
        exact ih _ hterm g' (by omega)

/-- In a terminated chain, the successor of any member is also a member. -/
theorem chain_mem_next (st : FsState) {p n : Nat}
    (hnext : (nodeAt st p).nextSibling = some n) :
    ∀ (fuel : Nat) (cur : Option Nat), chainTerm st fuel cur = true →
      p ∈ childChain st fuel cur → n ∈ childChain st fuel cur := by
  intro fuel
  induction fuel with
  | zero =>
    intro cur _ hp
    cases cur <;> simp [childChain] at hp
  | succ f ih =>
    intro cur hterm hp
    cases cur with
    | none => cases hp
    | some c =>
      unfold childChain at hp ⊢
      unfold chainTerm at hterm
      by_cases hcp : c = p
      · subst hcp
        rw [hnext] at hterm ⊢
        cases f with
        | zero => simp [chainTerm] at hterm
        | succ f' =>
          refine List.mem_cons_of_mem _ ?_
          unfold childChain
          exact List.mem_cons_self _ _
      · have hp' : p ∈ childChain st f (nodeAt st c).nextSibling := by
          cases hp with
          | head => exact absurd rfl hcp
          | tail _ h => exact h
        exact List.mem_cons_of_mem _ (ih _ hterm hp')

/-- `findPrev` starting from a non-`n` accumulator never reports `n` as
the first child. -/
theorem findPrev_acc_some (st : FsState) (n : Nat) :
    ∀ (fuel : Nat) (cur : Option Nat) (q : Nat),
      findPrev st fuel cur (some q) n ≠ some none := by
  intro fuel
  induction fuel with
  | zero => intro cur q h; cases h
  | succ f ih =>
    intro cur q h
    cases cur with
    | none => cases h
    | some it =>
      unfold findPrev at h
      by_cases hit : it = n
      · rw [if_pos hit] at h
        cases h
      · rw [if_neg hit] at h
        exact ih _ it h

/-- If the scan reports `n` as the first child, it really is. -/
theorem findPrev_none_spec (st : FsState) {n : Nat} {cur : Option Nat} {fuel : Nat}
    (h : findPrev st fuel cur none n = some none) : cur = some n := by
  cases fuel with
  | zero => cases h
  | succ f =>
    cases cur with
    | none => cases h
    | some it =>
      unfold findPrev at h
      by_cases hit : it = n
      · rw [hit]
      · rw [if_neg hit] at h
        exact absurd h (findPrev_acc_some st n f _ it)

/-- If the scan reports a real predecessor `p`, then `p` is a chain member
distinct from `n` whose successor is `n`. -/
theorem findPrev_some_spec (st : FsState) (n : Nat) :
    ∀ (fuel : Nat) (cur : Option Nat) (p : Nat),
      findPrev st fuel cur none n = some (some p) →
      p ∈ childChain st fuel cur ∧ p ≠ n ∧ (nodeAt st p).nextSibling = some n := by
  have haux : ∀ (fuel : Nat) (cur : Option Nat) (q p : Nat), q ≠ n →
      findPrev st fuel cur (some q) n = some (some p) →
      (p = q ∧ cur = some n) ∨
        (p ∈ childChain st fuel cur ∧ p ≠ n ∧ (nodeAt st p).nextSibling = some n) := by
    intro fuel
    induction fuel with
    | zero => intro cur q p _ h; cases h
    | succ f ih =>
      intro cur q p hq h
      cases cur with
      | none => cases h
      | some it =>
        unfold findPrev at h
        by_cases hit : it = n
        · rw [if_pos hit] at h
          injection h with h1
          injection h1 with h2
          left
          exact ⟨h2.symm, by rw [hit]⟩
        · rw [if_neg hit] at h
          have := ih _ it p hit h
          cases this with
          | inl hl =>
            right
            refine ⟨?_, ?_, ?_⟩
            · unfold childChain
              rw [hl.1]
              exact List.mem_cons_self _ _
            · rw [hl.1]; exact hit
            · rw [hl.1]; exact hl.2
          | inr hr =>
            right
            refine ⟨?_, hr.2.1, hr.2.2⟩
            unfold childChain
            exact List.mem_cons_of_mem _ hr.1
  intro fuel cur p h
  cases fuel with
  | zero => cases h
  | succ f =>
    cases cur with
    | none => cases h
    | some it =>
      unfold findPrev at h
      by_cases hit : it = n
      · rw [if_pos hit] at h
        exact absurd h (by simp)
      · rw [if_neg hit] at h
        have := haux f _ it p hit h
        cases this with
        | inl hl =>
          refine ⟨?_, ?_, ?_⟩
          · unfold childChain
            rw [hl.1]
            exact List.mem_cons_self _ _
          · rw [hl.1]; exact hit
          · rw [hl.1]; exact hl.2
        | inr hr =>
          exact ⟨by unfold childChain; exact List.mem_cons_of_mem _ hr.1, hr.2.1, hr.2.2⟩

end FakeFS

namespace FakeFS

/-- `find?` over a list with `n` erased, for a predicate agreeing off `n`:
the first match survives when it is not `n`. -/
theorem find?_erase_some {l : List Nat} {f g : Nat → Bool} {n m : Nat}
    (hnd : l.Nodup) (hfg : ∀ x ∈ l, x ≠ n → g x = f x)
    (hm : l.find? f = some m) (hmn : m ≠ n) : (l.erase n).find? g = some m := by
  induction l with
  | nil => cases hm
  | cons a t ih =>
    rw [List.find?_cons] at hm
    by_cases han : a = n
    · subst han
      rw [List.erase_cons_head]
      cases hfa : f a with
      | true =>
        rw [hfa] at hm
        injection hm with h
        exact absurd h.symm hmn
      | false =>
        rw [hfa] at hm
        have hnt : a ∉ t := (List.nodup_cons.mp hnd).1
        rw [ListAux.find?_ext t (fun x hx =>
          hfg x (List.mem_cons_of_mem _ hx) (fun he => hnt (he ▸ hx)))]
        exact hm
    · rw [List.erase_cons_tail (by simpa using han), List.find?_cons]
      have hga : g a = f a := hfg a (List.mem_cons_self _ _) han
      rw [hga]
      cases hfa : f a with
      | true =>
        rw [hfa] at hm
        exact hm
      | false =>
        rw [hfa] at hm
        exact ih (List.nodup_cons.mp hnd).2
          (fun x hx hxn => hfg x (List.mem_cons_of_mem _ hx) hxn) hm
  
/-- `find?` over a list with `n` erased fails when the predicate is false
on every element other than `n`. -/
theorem find?_erase_none {l : List Nat} {g : Nat → Bool} {n : Nat}
    (hnd : l.Nodup) (hg : ∀ x ∈ l, x ≠ n → g x = false) :
    (l.erase n).find? g = none := by
  rw [List.find?_eq_none]
  intro x hx
  have hx' := (List.Nodup.mem_erase_iff hnd).mp hx
  rw [hg x hx'.2 hx'.1]
  simp

/-- Unfolding equation of `childChain` at a successor fuel and live cursor. -/
theorem childChain_succ (st : FsState) (f : Nat) (c : Nat) :
    childChain st (f + 1) (some c) = c :: childChain st f (nodeAt st c).nextSibling := rfl

/-- Unfolding equation of `chainTerm` at a successor fuel and live cursor. -/
theorem chainTerm_succ (st : FsState) (f : Nat) (c : Nat) :
    chainTerm st (f + 1) (some c) = chainTerm st f (nodeAt st c).nextSibling := rfl

/-- A dead cursor yields the empty chain at every fuel. -/
theorem childChain_none (st : FsState) (f : Nat) : childChain st f none = [] := by
  cases f <;> rfl

/-- Core detach computation: if `p`'s successor is redirected from `n` to
`n`'s successor (and nothing else about successors changes), every
terminated duplicate-free chain through `p` loses exactly `n`. -/
theorem detach_chain_inner (st st2 : FsState) (n p : Nat)
    (hpn : p ≠ n)
    (hpnext : (nodeAt st p).nextSibling = some n)
    (hnext2 : ∀ m, m ≠ n → m ≠ p → (nodeAt st2 m).nextSibling = (nodeAt st m).nextSibling)
    (hp2 : (nodeAt st2 p).nextSibling = (nodeAt st n).nextSibling) :
    ∀ (fuel : Nat) (c : Nat),
      chainTerm st fuel (some c) = true →
      (childChain st fuel (some c)).Nodup →
      p ∈ childChain st fuel (some c) →
      childChain st2 fuel (some c) = (childChain st fuel (some c)).erase n := by
  intro fuel
  induction fuel with
  | zero =>
    intro c hterm _ _
    simp [chainTerm] at hterm
  | succ f ih =>
    intro c hterm hnd hp
    rw [chainTerm_succ] at hterm
    rw [childChain_succ] at hnd hp
    by_cases hcp : c = p
    · subst hcp
      rw [hpnext] at hterm hnd hp
      cases f with
      | zero => simp [chainTerm] at hterm
      | succ f' =>
        rw [chainTerm_succ] at hterm
        rw [childChain_succ] at hnd hp
        have hrest_stable := childChain_fuel_stable st f' _ hterm
        have hnn : n ∉ childChain st f' (nodeAt st n).nextSibling :=
          (List.nodup_cons.mp (List.nodup_cons.mp hnd).2).1
        have hcnn : c ∉ n :: childChain st f' (nodeAt st n).nextSibling :=
          (List.nodup_cons.mp hnd).1
        have hcongr : childChain st2 (f' + 1) (nodeAt st n).nextSibling
            = childChain st (f' + 1) (nodeAt st n).nextSibling := by
          refine childChain_congr st st2 (f' + 1) _ ?_
          intro m hm
          rw [hrest_stable (f' + 1) (by omega)] at hm
          refine hnext2 m (fun he => hnn (he ▸ hm)) (fun he => hcnn ?_)
          rw [← he]
          exact List.mem_cons_of_mem _ hm
        rw [childChain_succ st2, hp2, hcongr, hrest_stable (f' + 1) (by omega),
          childChain_succ st, hpnext, childChain_succ st,
          List.erase_cons_tail (by simpa using hpn), List.erase_cons_head]
    · have hcn : c ≠ n := by
        intro he
        have hp' : p ∈ childChain st f (nodeAt st c).nextSibling := by
          cases hp with
          | head => exact absurd rfl hcp
          | tail _ h => exact h
        have hn' := chain_mem_next st hpnext f _ hterm hp'
        rw [← he] at hn'
        exact (List.nodup_cons.mp hnd).1 hn'
      have hp' : p ∈ childChain st f (nodeAt st c).nextSibling := by
        cases hp with
        | head => exact absurd rfl hcp
        | tail _ h => exact h
      rw [childChain_succ st2, childChain_succ st, hnext2 c hcn hcp]
      cases hnc : (nodeAt st c).nextSibling with
      | none =>
        rw [hnc, childChain_none] at hp'
        cases hp'
      | some c2 =>
        rw [hnc] at hterm hnd hp'
        rw [ih c2 hterm (List.nodup_cons.mp hnd).2 hp']
        rw [List.erase_cons_tail (by simpa using hcn)]

end FakeFS

namespace FakeFS

/-- Unfolding equation of `fs_resolve_walk` on a cons. -/
theorem resolve_walk_cons (st : FsState) (seg : String) (rest : List String) (cur : Nat) :
    fs_resolve_walk st (seg :: rest) cur =
      (if seg == "." then fs_resolve_walk st rest cur
       else if seg == ".." then fs_resolve_walk st rest ((nodeAt st cur).parent.getD cur)
       else match fs_find_child st cur seg with
            | none => none
            | some nxt => fs_resolve_walk st rest nxt) := rfl

/-- Unfolding equation of `fs_resolve_walk` on the empty segment list. -/
theorem resolve_walk_nil (st : FsState) (cur : Nat) :
    fs_resolve_walk st [] cur = some cur := rfl

/-- Unfolding equation of `findPrev` at a successor fuel and live cursor. -/
theorem findPrev_succ (st : FsState) (f : Nat) (it : Nat) (prev : Option Nat) (n : Nat) :
    findPrev st (f + 1) (some it) prev n =
      (if it = n then some prev
       else findPrev st f (nodeAt st it).nextSibling (some it) n) := rfl

/-- Unfolding equation of `fs_find_child`. -/
theorem find_child_eq (st : FsState) (dir : Nat) (name : String) :
    fs_find_child st dir name =
      (if (nodeAt st dir).attr &&& AM_DIR == 0 then none
       else (childList st dir).find? (fun i => nameEq (nodeAt st i).name name)) := rfl

/-- A successful `fs_find_child` passed the directory-attribute guard. -/
theorem find_child_guard {st : FsState} {dir : Nat} {name : String} {b : Nat}
    (h : fs_find_child st dir name = some b) :
    ((nodeAt st dir).attr &&& AM_DIR == 0) = false := by
  rw [find_child_eq] at h
  cases hg : ((nodeAt st dir).attr &&& AM_DIR == 0) with
  | false => rfl
  | true =>
    rw [if_pos hg] at h
    cases h

/-- A successful `fs_find_child` is a `find?` hit on the child list. -/
theorem find_child_find? {st : FsState} {dir : Nat} {name : String} {b : Nat}
    (h : fs_find_child st dir name = some b) :
    (childList st dir).find? (fun i => nameEq (nodeAt st i).name name) = some b := by
  rw [find_child_eq] at h
  rw [if_neg (by rw [find_child_guard h]; simp)] at h
  exact h

/-- A successful `fs_find_child` yields a child whose name matches. -/
theorem find_child_mem {st : FsState} {dir : Nat} {name : String} {b : Nat}
    (h : fs_find_child st dir name = some b) :
    b ∈ childList st dir ∧ nameEq (nodeAt st b).name name = true :=
  ⟨List.mem_of_find?_eq_some (find_child_find? h),
   by simpa using List.find?_some (find_child_find? h)⟩

/-- A successful `fs_find_child` keeps the directory inside the pool:
out-of-pool indices read as the zeroed node, which fails the guard. -/
theorem find_child_lt {st : FsState} {dir : Nat} {name : String} {b : Nat}
    (hlen : st.pool.length = FS_MAX_NODES)
    (h : fs_find_child st dir name = some b) : dir < FS_MAX_NODES := by
  by_contra hge
  have hdef : nodeAt st dir = default := by
    show st.pool.getD dir default = default
    rw [List.getD_eq_getElem?_getD, List.getElem?_eq_none (by omega)]
    rfl
  have hg := find_child_guard h
  rw [hdef] at hg
  exact Bool.noConfusion hg

/-- Case-insensitive equality transfer: if `b` matches segment `s` but `a`
does not match `b`, then `a` does not match `s` either. -/
theorem nameEq_false_of {a b s : String} (h1 : nameEq b s = true)
    (h2 : nameEq a b = false) : nameEq a s = false := by
  unfold nameEq at h1 h2 ⊢
  rw [beq_iff_eq] at h1
  cases h3 : (a.toList.map Char.toLower == s.toList.map Char.toLower) with
  | false => rfl
  | true =>
    rw [beq_iff_eq] at h3
    rw [beq_eq_false_iff_ne] at h2
    exact absurd (h3.trans h1.symm) h2

/-- `findPrev` succeeds whenever the sought node is on the chain. -/
theorem findPrev_isSome (st : FsState) (n : Nat) :
    ∀ (fuel : Nat) (cur : Option Nat) (prev : Option Nat),
      n ∈ childChain st fuel cur → (findPrev st fuel cur prev n).isSome = true := by
  intro fuel
  induction fuel with
  | zero =>
    intro cur prev h
    have he : childChain st 0 cur = [] := by cases cur <;> rfl
    rw [he] at h
    cases h
  | succ f ih =>
    intro cur prev h
    cases cur with
    | none =>
      rw [childChain_none] at h
      cases h
    | some it =>
      rw [childChain_succ] at h
      rw [findPrev_succ]
      by_cases hit : it = n
      · rw [if_pos hit]
        rfl
      · rw [if_neg hit]
        refine ih _ _ ?_
        cases h with
        | head => exact absurd rfl hit
        | tail _ h' => exact h'

/-- `lastOrd` on a singleton. -/
theorem lastOrd_single (s : String) : lastOrd [s] = ordSeg s := rfl

/-- `containsOrd` on a cons. -/
theorem containsOrd_cons (s : String) (t : List String) :
    containsOrd (s :: t) = (ordSeg s || containsOrd t) := rfl

/-- A path whose last segment is ordinary contains an ordinary segment. -/
theorem lastOrd_containsOrd : ∀ segs, lastOrd segs = true → containsOrd segs = true := by
  intro segs
  induction segs with
  | nil =>
    intro h
    simp [lastOrd] at h
  | cons s rest ih =>
    intro h
    cases rest with
    | nil =>
      rw [lastOrd_single] at h
      rw [containsOrd_cons, h]
      simp
    | cons b t =>
      rw [containsOrd_cons, ih h]
      simp

/-- From a node whose record has been cleared (zero attribute, no parent),
every walk still containing an ordinary segment fails: `.` and `..` stay
put and any name lookup hits the directory guard. -/
theorem walk_from_cleared (st2 : FsState) (n : Nat)
    (hattr : (nodeAt st2 n).attr = 0) (hpar : (nodeAt st2 n).parent = none) :
    ∀ segs, containsOrd segs = true → fs_resolve_walk st2 segs n = none := by
  intro segs
  induction segs with
  | nil =>
    intro h
    simp [containsOrd] at h
  | cons s rest ih =>
    intro hc
    rw [containsOrd_cons] at hc
    rw [resolve_walk_cons]
    by_cases h1 : (s == ".") = true
    · rw [if_pos h1]
      refine ih ?_
      rw [ordSeg, h1] at hc
      simpa using hc
    · rw [if_neg h1]
      by_cases h2 : (s == "..") = true
      · rw [if_pos h2]
        rw [hpar]
        refine ih ?_
        rw [ordSeg, h2] at hc
        simpa using hc
      · have hnone : fs_find_child st2 n s = none := by
          rw [find_child_eq, hattr]
          rw [if_pos (by decide)]
        rw [if_neg h2, hnone]

end FakeFS

namespace FakeFS

/-- Core of the corrected resolution claim for `f_unlink`: after the unlink
surgery (node `n` cleared and removed from `parent`'s child list, all other
records' name/attribute/parent untouched, all other child lists untouched),
a segment walk that used to end at `n` and whose final segment is an
ordinary name fails — provided no surviving sibling of `n` shares its name
case-insensitively. -/
theorem walk_detach_fail (st st2 : FsState) (n parent : Nat)
    (hwf : TreeWF st)
    (hparlt : parent < FS_MAX_NODES)
    (hmem : n ∈ childList st parent)
    (hname2 : ∀ m, m ≠ n → (nodeAt st2 m).name = (nodeAt st m).name)
    (hattr2 : ∀ m, m ≠ n → (nodeAt st2 m).attr = (nodeAt st m).attr)
    (hparent2 : ∀ m, m ≠ n → (nodeAt st2 m).parent = (nodeAt st m).parent)
    (hclrattr : (nodeAt st2 n).attr = 0)
    (hclrpar : (nodeAt st2 n).parent = none)
    (hchpar : childList st2 parent = (childList st parent).erase n)
    (hchoth : ∀ d, d < FS_MAX_NODES → d ≠ parent → d ≠ n → childList st2 d = childList st d)
    (huniq : ∀ m, m ∈ childList st parent → m ≠ n →
      nameEq (nodeAt st m).name (nodeAt st n).name = false) :
    ∀ (segs : List String) (a : Nat), lastOrd segs = true →
      fs_resolve_walk st segs a = some n → fs_resolve_walk st2 segs a = none := by
  intro segs
  induction segs with
  | nil =>
    intro a hl _
    simp [lastOrd] at hl
  | cons s rest ih =>
    intro a hlast hw
    by_cases han : a = n
    · subst han
      exact walk_from_cleared st2 a hclrattr hclrpar (s :: rest)
        (lastOrd_containsOrd _ hlast)
    · rw [resolve_walk_cons] at hw ⊢
      by_cases h1 : (s == ".") = true
      · rw [if_pos h1] at hw ⊢
        have hl' : lastOrd rest = true := by
          cases rest with
          | nil =>
            rw [lastOrd_single, ordSeg, h1] at hlast
            simp at hlast
          | cons b t => exact hlast
        exact ih a hl' hw
      · rw [if_neg h1] at hw ⊢
        by_cases h2 : (s == "..") = true
        · rw [if_pos h2] at hw ⊢
          rw [hparent2 a han]
          have hl' : lastOrd rest = true := by
            cases rest with
            | nil =>
              rw [lastOrd_single, ordSeg, h2] at hlast
              simp at hlast
            | cons b t => exact hlast
          exact ih _ hl' hw
        · rw [if_neg h2] at hw ⊢
          cases hfc : fs_find_child st a s with
          | none =>
            rw [hfc] at hw
            exact Option.noConfusion hw
          | some b =>
            rw [hfc] at hw
            have hw' : fs_resolve_walk st rest b = some n := hw
            have hb := find_child_mem hfc
            have halt : a < FS_MAX_NODES := find_child_lt hwf.1 hfc
            by_cases hbn : b = n
            · subst hbn
              have hap : a = parent := hwf.2.2.2.1 a halt parent hparlt b hb.1 hmem
              subst hap
              have hnone : fs_find_child st2 a s = none := by
                rw [find_child_eq, hattr2 a han]
                rw [if_neg (by rw [find_child_guard hfc]; simp)]
                rw [hchpar]
                refine find?_erase_none (hwf.2.2.1 a hparlt) ?_
                intro x hx hxn
                show nameEq (nodeAt st2 x).name s = false
                rw [hname2 x hxn]
                exact nameEq_false_of hb.2 (huniq x hx hxn)
              rw [hnone]
            · have hsome : fs_find_child st2 a s = some b := by
                rw [find_child_eq, hattr2 a han]
                rw [if_neg (by rw [find_child_guard hfc]; simp)]
                by_cases hap : a = parent
                · subst hap
                  rw [hchpar]
                  refine find?_erase_some (hwf.2.2.1 a hparlt) ?_ (find_child_find? hfc) hbn
                  intro x _ hxn
                  show nameEq (nodeAt st2 x).name s = nameEq (nodeAt st x).name s
                  rw [hname2 x hxn]
                · rw [hchoth a halt hap han]
                  have hnm : ∀ x ∈ childList st a, x ≠ n := by
                    intro x hx he
                    subst he
                    exact hap (hwf.2.2.2.1 a halt parent hparlt x hx hmem)
                  rw [ListAux.find?_ext _ (fun x hx => by
                    show nameEq (nodeAt st2 x).name s = nameEq (nodeAt st x).name s
                    rw [hname2 x (hnm x hx)])]
                  exact find_child_find? hfc
              rw [hsome]
              have hl' : lastOrd rest = true := by
                cases rest with
                | nil =>
                  rw [resolve_walk_nil] at hw'
                  injection hw' with hh
                  exact absurd hh hbn
                | cons b' t => exact hlast
              exact ih b hl' hw'

/-- Lift of `walk_detach_fail` to `fs_resolve`: the full path that used to
resolve to the unlinked node no longer resolves. -/
theorem resolve_detach_fail (st st2 : FsState) (n parent : Nat) (path : String)
    (hwf : TreeWF st)
    (hparlt : parent < FS_MAX_NODES)
    (hmem : n ∈ childList st parent)
    (hname2 : ∀ m, m ≠ n → (nodeAt st2 m).name = (nodeAt st m).name)
    (hattr2 : ∀ m, m ≠ n → (nodeAt st2 m).attr = (nodeAt st m).attr)
    (hparent2 : ∀ m, m ≠ n → (nodeAt st2 m).parent = (nodeAt st m).parent)
    (hclrattr : (nodeAt st2 n).attr = 0)
    (hclrpar : (nodeAt st2 n).parent = none)
    (hchpar : childList st2 parent = (childList st parent).erase n)
    (hchoth : ∀ d, d < FS_MAX_NODES → d ≠ parent → d ≠ n → childList st2 d = childList st d)
    (huniq : ∀ m, m ∈ childList st parent → m ≠ n →
      nameEq (nodeAt st m).name (nodeAt st n).name = false)
    (hroot2 : st2.root = st.root)
    (hcwd2 : st2.cwd = st.cwd)
    (hlast : lastOrd (splitPath path) = true)
    (hres : fs_resolve st path = some n) :
    fs_resolve st2 path = none := by
  unfold fs_resolve at hres ⊢
  cases hr0 : st.root with
  | none =>
    rw [hr0] at hres
    exact Option.noConfusion hres
  | some r =>
    rw [hr0] at hres
    rw [hroot2, hr0]
    have hpne : (path == "") = false := by
      cases hpe : (path == "") with
      | false => rfl
      | true =>
        have he : path = "" := eq_of_beq hpe
        rw [he] at hlast
        simp [splitPath, splitSegs, lastOrd] at hlast
    have hres2 : (if (path == "") = true then some (st.cwd.getD r)
        else fs_resolve_walk st (splitPath path)
          (if isAbs path then r else st.cwd.getD r)) = some n := hres
    rw [if_neg (by rw [hpne]; simp)] at hres2
    show (if (path == "") = true then some (st2.cwd.getD r)
        else fs_resolve_walk st2 (splitPath path)
          (if isAbs path then r else st2.cwd.getD r)) = none
    rw [if_neg (by rw [hpne]; simp), hcwd2]
    exact walk_detach_fail st st2 n parent hwf hparlt hmem hname2 hattr2 hparent2
      hclrattr hclrpar hchpar hchoth huniq (splitPath path) _ hlast hres2

end FakeFS

namespace FakeFS

/-- `updateNode` keeps the pool size. -/
theorem updateNode_pool_length (st : FsState) (i : Nat) (f : FsNode → FsNode) :
    (updateNode st i f).pool.length = st.pool.length := by
  simp [updateNode]

/-- Reading an untouched slot through two node updates. -/
theorem nodeAt_upd2_other (st : FsState) (w n m : Nat) (g h : FsNode → FsNode)
    (hmw : m ≠ w) (hmn : m ≠ n) :
    nodeAt (updateNode (updateNode st w g) n h) m = nodeAt st m := by
  rw [nodeAt_updateNode_other _ _ _ _ hmn, nodeAt_updateNode_other _ _ _ _ hmw]

/-- Reading the first-updated slot through two node updates. -/
theorem nodeAt_upd2_mid (st : FsState) (w n : Nat) (g h : FsNode → FsNode)
    (hwn : w ≠ n) (hw : w < st.pool.length) :
    nodeAt (updateNode (updateNode st w g) n h) w = g (nodeAt st w) := by
  rw [nodeAt_updateNode_other _ _ _ _ hwn, nodeAt_updateNode_same _ _ _ hw]

/-- Reading the second-updated slot through two node updates. -/
theorem nodeAt_upd2_last (st : FsState) (w n : Nat) (g h : FsNode → FsNode)
    (hn : n < st.pool.length) :
    nodeAt (updateNode (updateNode st w g) n h) n
      = h (nodeAt (updateNode st w g) n) := by
  refine nodeAt_updateNode_same _ _ _ ?_
  rw [updateNode_pool_length]
  exact hn

/-- A directory's child list is unchanged when its chain head and every
chain member's successor are unchanged. -/
theorem childList_preserved (st st2 : FsState) (d : Nat)
    (hfc : (nodeAt st2 d).firstChild = (nodeAt st d).firstChild)
    (hnext : ∀ i, i ∈ childList st d → (nodeAt st2 i).nextSibling = (nodeAt st i).nextSibling) :
    childList st2 d = childList st d := by
  unfold childList
  rw [hfc]
  exact childChain_congr st st2 FS_MAX_NODES _ hnext

/-- Head-of-chain detach: when the unlinked node is the first child, the
parent's chain head is redirected to its successor, erasing it from the
child list. -/
theorem detach_chain_head (st st2 : FsState) (n parent : Nat)
    (hfc : (nodeAt st parent).firstChild = some n)
    (hfc2 : (nodeAt st2 parent).firstChild = (nodeAt st n).nextSibling)
    (hterm : chainTerm st FS_MAX_NODES (nodeAt st parent).firstChild = true)
    (hnd : (childList st parent).Nodup)
    (hnext2 : ∀ m, m ≠ n → (nodeAt st2 m).nextSibling = (nodeAt st m).nextSibling) :
    childList st2 parent = (childList st parent).erase n := by
  unfold childList at hnd ⊢
  rw [hfc] at hterm hnd
  have h64 : FS_MAX_NODES = 63 + 1 := rfl
  rw [h64, chainTerm_succ] at hterm
  rw [h64, childChain_succ] at hnd
  rw [hfc2, hfc, h64, childChain_succ, List.erase_cons_head]
  have hstable := childChain_fuel_stable st 63 _ hterm
  have hcongr : childChain st2 (63 + 1) (nodeAt st n).nextSibling
      = childChain st (63 + 1) (nodeAt st n).nextSibling := by
    refine childChain_congr st st2 (63 + 1) _ ?_
    intro i hi
    rw [hstable (63 + 1) (by omega)] at hi
    exact hnext2 i (fun he => (List.nodup_cons.mp hnd).1 (he ▸ hi))
  rw [hcongr, hstable (63 + 1) (by omega)]

/-- Mid-chain detach: when the unlinked node has a predecessor `p` on the
parent's chain, redirecting `p`'s successor erases it from the child list. -/
theorem detach_chain_prev (st st2 : FsState) (n parent p : Nat)
    (hpn : p ≠ n)
    (hpnext : (nodeAt st p).nextSibling = some n)
    (hfc2 : (nodeAt st2 parent).firstChild = (nodeAt st parent).firstChild)
    (hterm : chainTerm st FS_MAX_NODES (nodeAt st parent).firstChild = true)
    (hnd : (childList st parent).Nodup)
    (hpmem : p ∈ childList st parent)
    (hnext2 : ∀ m, m ≠ n → m ≠ p → (nodeAt st2 m).nextSibling = (nodeAt st m).nextSibling)
    (hp2 : (nodeAt st2 p).nextSibling = (nodeAt st n).nextSibling) :
    childList st2 parent = (childList st parent).erase n := by
  unfold childList at hnd hpmem ⊢
  cases hfc : (nodeAt st parent).firstChild with
  | none =>
    rw [hfc, childChain_none] at hpmem
    cases hpmem
  | some c0 =>
    rw [hfc] at hterm hnd hpmem hfc2
    rw [hfc2]
    exact detach_chain_inner st st2 n p hpn hpnext hnext2 hp2 FS_MAX_NODES c0
      hterm hnd hpmem

end FakeFS

namespace FakeFS

set_option maxRecDepth 400000 in
/-- The default mounted tree is structurally well-formed. -/
theorem f_mount_TreeWF : TreeWF (f_mount initState) := by
  unfold TreeWF
  refine ⟨by decide, by decide, by decide, by decide, by decide, by decide⟩

/-- Claim C8: `f_unlink` denies removal of the root and of a directory that
still has a child; otherwise (target in its parent's child list) it
returns FR_OK, clears the node's record to the free-slot state scanned for
by `fs_alloc_node` (empty name, zero attributes, data buffer dropped),
removes exactly that node from the parent's child list (so directory
iteration no longer shows it) — and, when the path's final segment is an
ordinary name (not `.`/`..`) that no surviving sibling shares
case-insensitively, the path no longer resolves.  The counterexample shows
the resolution clause is false without that proviso (`unlink "."`). -/
theorem C8_unlink (st : FsState) (path : String) (n : Nat)
    (hwf : TreeWF st)
    (hres : fs_resolve st path = some n) :
    (st.root = some n → f_unlink st path = (FR_DENIED, st)) ∧
    (st.root ≠ some n →
      ((nodeAt st n).attr &&& AM_DIR ≠ 0 && (nodeAt st n).firstChild.isSome) = true →
      f_unlink st path = (FR_DENIED, st)) ∧
    (∀ parent, st.root ≠ some n →
      ((nodeAt st n).attr &&& AM_DIR ≠ 0 && (nodeAt st n).firstChild.isSome) = false →
      (nodeAt st n).parent = some parent →
      parent < FS_MAX_NODES →
      n ∈ childList st parent →
      (f_unlink st path).1 = FR_OK ∧
      nodeAt (f_unlink st path).2 n =
        { name := "", attr := 0, parent := none, firstChild := none,
          nextSibling := none, data := none, size := 0, startCluster := 0 } ∧
      childList (f_unlink st path).2 parent = (childList st parent).erase n ∧
      n ∉ childList (f_unlink st path).2 parent ∧
      (lastOrd (splitPath path) = true →
        (∀ m, m ∈ childList st parent → m ≠ n →
          nameEq (nodeAt st m).name (nodeAt st n).name = false) →
        fs_resolve (f_unlink st path).2 path = none)) := by
  have hstep : f_unlink st path =
      (if st.root = some n then (FR_DENIED, st)
       else if (nodeAt st n).attr &&& AM_DIR ≠ 0 && (nodeAt st n).firstChild.isSome then
         (FR_DENIED, st)
       else
         match (nodeAt st n).parent with
         | none => (FR_INT_ERR, st)
         | some parent =>
           match findPrev st FS_MAX_NODES (nodeAt st parent).firstChild none n with
           | none => (FR_INT_ERR, st)
           | some prevO =>
             let st1 := match prevO with
               | none => updateNode st parent
                   (fun d => { d with firstChild := (nodeAt st n).nextSibling })
               | some p => updateNode st p
                   (fun q => { q with nextSibling := (nodeAt st n).nextSibling })
             (FR_OK,
               updateNode st1 n (fun m =>
                 { m with name := "", attr := 0, parent := none, firstChild := none,
                          nextSibling := none, data := none, size := 0,
                          startCluster := 0 }))) := by
    unfold f_unlink
    rw [hres]
  refine ⟨?_, ?_, ?_⟩
  · intro hr
    rw [hstep, if_pos hr]
  · intro hr hb
    rw [hstep, if_neg hr, if_pos hb]
  · intro parent hr hb hp hparlt hmem
    have hb' : ¬(((nodeAt st n).attr &&& AM_DIR ≠ 0 &&
        (nodeAt st n).firstChild.isSome) = true) := by
      rw [hb]
      simp
    have hstep2 : f_unlink st path =
        (match findPrev st FS_MAX_NODES (nodeAt st parent).firstChild none n with
         | none => (FR_INT_ERR, st)
         | some prevO =>
           let st1 := match prevO with
             | none => updateNode st parent
                 (fun d => { d with firstChild := (nodeAt st n).nextSibling })
             | some p => updateNode st p
                 (fun q => { q with nextSibling := (nodeAt st n).nextSibling })
           (FR_OK,
             updateNode st1 n (fun m =>
               { m with name := "", attr := 0, parent := none, firstChild := none,
                        nextSibling := none, data := none, size := 0,
                        startCluster := 0 }))) := by
      rw [hstep, if_neg hr, if_neg hb', hp]
    have hlen : st.pool.length = FS_MAX_NODES := hwf.1
    have hnlt : n < FS_MAX_NODES := hwf.2.2.2.2.2 parent hparlt n hmem
    have hpnn : parent ≠ n := by
      intro he
      rw [← he] at hmem
      exact hwf.2.2.2.2.1 parent hparlt hmem
    have hterm : chainTerm st FS_MAX_NODES (nodeAt st parent).firstChild = true :=
      hwf.2.1 parent hparlt
    have hnd : (childList st parent).Nodup := hwf.2.2.1 parent hparlt
    have hnltp : n < st.pool.length := by
      rw [hlen]
      exact hnlt
    have hparltp : parent < st.pool.length := by
      rw [hlen]
      exact hparlt
    have hnotmem : n ∉ (childList st parent).erase n := by
      intro h
      exact ((List.Nodup.mem_erase_iff hnd).mp h).1 rfl
    cases hfp : findPrev st FS_MAX_NODES (nodeAt st parent).firstChild none n with
    | none =>
      have hs := findPrev_isSome st n FS_MAX_NODES (nodeAt st parent).firstChild none hmem
      rw [hfp] at hs
      exact Bool.noConfusion hs
    | some prevO =>
      cases prevO with
      | none =>
        have hfc : (nodeAt st parent).firstChild = some n := findPrev_none_spec st hfp
        have hfst : (f_unlink st path).1 = FR_OK := by
          rw [hstep2, hfp]
        have hsnd : (f_unlink st path).2 = updateNode (unlinkHead st parent n) n clearNode := by
          rw [hstep2, hfp]
          exact rfl
        have hclr : nodeAt (updateNode (unlinkHead st parent n) n clearNode) n =
            { name := "", attr := 0, parent := none, firstChild := none,
              nextSibling := none, data := none, size := 0, startCluster := 0 } :=
          nodeAt_upd2_last st parent n
            (fun d => { d with firstChild := (nodeAt st n).nextSibling }) clearNode hnltp
        have hmid : nodeAt (updateNode (unlinkHead st parent n) n clearNode) parent
            = { nodeAt st parent with firstChild := (nodeAt st n).nextSibling } :=
          nodeAt_upd2_mid st parent n
            (fun d => { d with firstChild := (nodeAt st n).nextSibling }) clearNode hpnn hparltp
        have hoth : ∀ m, m ≠ n → m ≠ parent →
            nodeAt (updateNode (unlinkHead st parent n) n clearNode) m = nodeAt st m :=
          fun m hmn hmp => nodeAt_upd2_other st parent n m
            (fun d => { d with firstChild := (nodeAt st n).nextSibling }) clearNode hmp hmn
        have hfields : ∀ m, m ≠ n →
            (nodeAt (updateNode (unlinkHead st parent n) n clearNode) m).name
              = (nodeAt st m).name ∧
            (nodeAt (updateNode (unlinkHead st parent n) n clearNode) m).attr
              = (nodeAt st m).attr ∧
            (nodeAt (updateNode (unlinkHead st parent n) n clearNode) m).parent
              = (nodeAt st m).parent := by
          intro m hmn
          by_cases hmp : m = parent
          · rw [hmp]
            exact ⟨(congrArg FsNode.name hmid).trans rfl,
              (congrArg FsNode.attr hmid).trans rfl,
              (congrArg FsNode.parent hmid).trans rfl⟩
          · exact ⟨congrArg FsNode.name (hoth m hmn hmp),
              congrArg FsNode.attr (hoth m hmn hmp),
              congrArg FsNode.parent (hoth m hmn hmp)⟩
        have hnext2 : ∀ m, m ≠ n →
            (nodeAt (updateNode (unlinkHead st parent n) n clearNode) m).nextSibling
              = (nodeAt st m).nextSibling := by
          intro m hmn
          by_cases hmp : m = parent
          · rw [hmp]
            exact (congrArg FsNode.nextSibling hmid).trans rfl
          · exact congrArg FsNode.nextSibling (hoth m hmn hmp)
        have hfc2 : (nodeAt (updateNode (unlinkHead st parent n) n clearNode) parent).firstChild
            = (nodeAt st n).nextSibling :=
          (congrArg FsNode.firstChild hmid).trans rfl
        have herase : childList (updateNode (unlinkHead st parent n) n clearNode) parent
            = (childList st parent).erase n :=
          detach_chain_head st _ n parent hfc hfc2 hterm hnd hnext2
        have hchoth : ∀ d, d < FS_MAX_NODES → d ≠ parent → d ≠ n →
            childList (updateNode (unlinkHead st parent n) n clearNode) d
              = childList st d := by
          intro d hd hdp hdn
          refine childList_preserved st _ d ?_ ?_
          · exact congrArg FsNode.firstChild (hoth d hdn hdp)
          · intro i hi
            refine hnext2 i ?_
            intro he
            rw [he] at hi
            exact hdp (hwf.2.2.2.1 d hd parent hparlt n hi hmem)
        refine ⟨hfst, ?_, ?_, ?_, ?_⟩
        · rw [hsnd]
          exact hclr
        · rw [hsnd]
          exact herase
        · rw [hsnd, herase]
          exact hnotmem
        · intro hlast huniq
          rw [hsnd]
          exact resolve_detach_fail st _ n parent path hwf hparlt hmem
            (fun m hm => (hfields m hm).1) (fun m hm => (hfields m hm).2.1)
            (fun m hm => (hfields m hm).2.2)
            (by rw [hclr]) (by rw [hclr]) herase hchoth huniq rfl rfl hlast hres
      | some p =>
        obtain ⟨hpmem, hpn, hpnext⟩ := findPrev_some_spec st n FS_MAX_NODES _ p hfp
        have hpmem' : p ∈ childList st parent := hpmem
        have hplt : p < FS_MAX_NODES := hwf.2.2.2.2.2 parent hparlt p hpmem'
        have hpltp : p < st.pool.length := by
          rw [hlen]
          exact hplt
        have hfst : (f_unlink st path).1 = FR_OK := by
          rw [hstep2, hfp]
        have hsnd : (f_unlink st path).2 = updateNode (unlinkPrev st p n) n clearNode := by
          rw [hstep2, hfp]
          exact rfl
        have hclr : nodeAt (updateNode (unlinkPrev st p n) n clearNode) n =
            { name := "", attr := 0, parent := none, firstChild := none,
              nextSibling := none, data := none, size := 0, startCluster := 0 } :=
          nodeAt_upd2_last st p n
            (fun q => { q with nextSibling := (nodeAt st n).nextSibling }) clearNode hnltp
        have hmid : nodeAt (updateNode (unlinkPrev st p n) n clearNode) p
            = { nodeAt st p with nextSibling := (nodeAt st n).nextSibling } :=
          nodeAt_upd2_mid st p n
            (fun q => { q with nextSibling := (nodeAt st n).nextSibling }) clearNode hpn hpltp
        have hoth : ∀ m, m ≠ n → m ≠ p →
            nodeAt (updateNode (unlinkPrev st p n) n clearNode) m = nodeAt st m :=
          fun m hmn hmp => nodeAt_upd2_other st p n m
            (fun q => { q with nextSibling := (nodeAt st n).nextSibling }) clearNode hmp hmn
        have hfields : ∀ m, m ≠ n →
            (nodeAt (updateNode (unlinkPrev st p n) n clearNode) m).name
              = (nodeAt st m).name ∧
            (nodeAt (updateNode (unlinkPrev st p n) n clearNode) m).attr
              = (nodeAt st m).attr ∧
            (nodeAt (updateNode (unlinkPrev st p n) n clearNode) m).parent
              = (nodeAt st m).parent := by
          intro m hmn
          by_cases hmp : m = p
          · rw [hmp]
            exact ⟨(congrArg FsNode.name hmid).trans rfl,
              (congrArg FsNode.attr hmid).trans rfl,
              (congrArg FsNode.parent hmid).trans rfl⟩
          · exact ⟨congrArg FsNode.name (hoth m hmn hmp),
              congrArg FsNode.attr (hoth m hmn hmp),
              congrArg FsNode.parent (hoth m hmn hmp)⟩
        have hfcpres : ∀ m, m ≠ n →
            (nodeAt (updateNode (unlinkPrev st p n) n clearNode) m).firstChild
              = (nodeAt st m).firstChild := by
          intro m hmn
          by_cases hmp : m = p
          · rw [hmp]
            exact (congrArg FsNode.firstChild hmid).trans rfl
          · exact congrArg FsNode.firstChild (hoth m hmn hmp)
        have hnext2 : ∀ m, m ≠ n → m ≠ p →
            (nodeAt (updateNode (unlinkPrev st p n) n clearNode) m).nextSibling
              = (nodeAt st m).nextSibling := by
          intro m hmn hmp
          exact congrArg FsNode.nextSibling (hoth m hmn hmp)
        have hp2 : (nodeAt (updateNode (unlinkPrev st p n) n clearNode) p).nextSibling
            = (nodeAt st n).nextSibling :=
          (congrArg FsNode.nextSibling hmid).trans rfl
        have herase : childList (updateNode (unlinkPrev st p n) n clearNode) parent
            = (childList st parent).erase n :=
          detach_chain_prev st _ n parent p hpn hpnext (hfcpres parent hpnn) hterm hnd
            hpmem' hnext2 hp2
        have hchoth : ∀ d, d < FS_MAX_NODES → d ≠ parent → d ≠ n →
            childList (updateNode (unlinkPrev st p n) n clearNode) d
              = childList st d := by
          intro d hd hdp hdn
          refine childList_preserved st _ d (hfcpres d hdn) ?_
          intro i hi
          refine hnext2 i ?_ ?_
          · intro he
            rw [he] at hi
            exact hdp (hwf.2.2.2.1 d hd parent hparlt n hi hmem)
          · intro he
            rw [he] at hi
            exact hdp (hwf.2.2.2.1 d hd parent hparlt p hi hpmem')
        refine ⟨hfst, ?_, ?_, ?_, ?_⟩
        · rw [hsnd]
          exact hclr
        · rw [hsnd]
          exact herase
        · rw [hsnd, herase]
          exact hnotmem
        · intro hlast huniq
          rw [hsnd]
          exact resolve_detach_fail st _ n parent path hwf hparlt hmem
            (fun m hm => (hfields m hm).1) (fun m hm => (hfields m hm).2.1)
            (fun m hm => (hfields m hm).2.2)
            (by rw [hclr]) (by rw [hclr]) herase hchoth huniq rfl rfl hlast hres

end FakeFS

namespace FakeFS

/-- Claim C8 counterexample: on the default layout, after `chdir` into the
empty directory `/SYSTEM/PLUG` (node 3), `f_unlink "."` succeeds with
FR_OK — yet the very path `"."` still resolves afterwards (the dangling
`g_cwd` keeps naming the freed slot), refuting the unqualified "the path
no longer resolves" part of the claim. -/
theorem C8_counterexample :
    (f_unlink (f_chdir (f_mount initState) "/SYSTEM/PLUG").2 ".").1 = FR_OK ∧
    fs_resolve (f_unlink (f_chdir (f_mount initState) "/SYSTEM/PLUG").2 ".").2 "."
      = some 3 :=
  ⟨by decide, by decide⟩

/-- Witness instantiation of the C8 theorem: unlinking `/Readme.txt`
(node 8, a plain file under the root, node 0, with a unique name) from the
freshly mounted default layout succeeds, removes it from the root's child
list, and the path stops resolving. -/
theorem C8_witness :
    TreeWF (f_mount initState) ∧
    fs_resolve (f_mount initState) "/Readme.txt" = some 8 ∧
    (f_unlink (f_mount initState) "/Readme.txt").1 = FR_OK ∧
    (8 : Nat) ∉ childList (f_unlink (f_mount initState) "/Readme.txt").2 0 ∧
    fs_resolve (f_unlink (f_mount initState) "/Readme.txt").2 "/Readme.txt" = none := by
  have hwf : TreeWF (f_mount initState) := f_mount_TreeWF
  have hres : fs_resolve (f_mount initState) "/Readme.txt" = some 8 := by decide
  obtain ⟨h1, h2, h3, h4, h5⟩ :=
    (C8_unlink (f_mount initState) "/Readme.txt" 8 hwf hres).2.2 0
      (by decide) (by decide) (by decide) (by decide) (by decide)
  exact ⟨hwf, hres, h1, h4, h5 (by decide) (by decide)⟩

end FakeFS
